import Mathlib

/-!
Verification of the hexagonal aggregation and density-scoring engine.

The definitions below are a shallow embedding of the TypeScript source
(`src/components/MapShell.tsx`, `src/lib/mockData.ts`, `src/lib/safety.ts`).
JavaScript numbers are modelled as rationals (`ℚ`); the only places where the
source computes transcendental functions (spherical-mercator conversion and
the sine/cosine used by the hexagon-ring builder) are either parametrised by
an explicit interface record (`GeoApi`, `H3Api`) or, for the geometric claim
about the ring builder, embedded over `ℝ`.  JavaScript `Map`s are modelled as
insertion-ordered association lists (`mapGet` / `mapSet`), which is exactly
the iteration semantics the source relies on.
-/

set_option maxHeartbeats 1600000

namespace GreedSeek

/-- JavaScript `Math.round`: round half toward positive infinity. -/
def jsRound (q : ℚ) : ℤ := ⌊q + 1/2⌋

/-- Source `clamp(n, min, max) = Math.max(min, Math.min(max, n))` on rationals. -/
def clampQ (n lo hi : ℚ) : ℚ := max lo (min hi n)

/-- Integer form of the same clamp, used for the 0–100 greed level. -/
def clampZ (n lo hi : ℤ) : ℤ := max lo (min hi n)

/-- Source `GREED_MAX_BY_RES[res] ?? 1000` (a `Record<number, number>` with keys 5, 6, 8). -/
def greedMaxByRes (res : ℚ) : ℚ :=
  if res = 5 then 2500 else if res = 6 then 900 else if res = 8 then 300 else 1000

/-- Source `greedLevelFromEstimated(estimated, res)`:
`clamp(Math.round((Math.max(0, estimated) / max) * 100), 0, 100)`. -/
def greedLevelFromEstimated (estimated : ℚ) (res : ℚ) : ℤ :=
  clampZ (jsRound (max 0 estimated / greedMaxByRes res * 100)) 0 100

/-- Spec wording: the per-resolution normalization constant (2500 / 900 / 300). -/
def specResolutionMax (res : ℚ) : ℚ :=
  if res = 5 then 2500 else if res = 6 then 900 else 300

/-- Spec wording for the level: `round(clamp(weightedEstimate / resolutionMax, 0, 1) × 100)`. -/
def specLevel (estimated : ℚ) (res : ℚ) : ℤ :=
  jsRound (clampQ (estimated / specResolutionMax res) 0 1 * 100)

theorem jsRound_mono {a b : ℚ} (h : a ≤ b) : jsRound a ≤ jsRound b :=
  Int.floor_le_floor (by linarith)

theorem jsRound_zero : jsRound 0 = 0 := by norm_num [jsRound]

theorem jsRound_hundred : jsRound 100 = 100 := by norm_num [jsRound]

/-- Core arithmetic fact behind C4: the source's clamp-after-round agrees with the
spec's round-after-clamp whenever the normalization constant is positive. -/
theorem level_round_clamp_comm (e M : ℚ) (hM : 0 < M) :
    clampZ (jsRound (max 0 e / M * 100)) 0 100 = jsRound (clampQ (e / M) 0 1 * 100) := by
  rcases le_or_lt e 0 with he | he
  · have h1 : max 0 e = 0 := max_eq_left he
    have h2 : e / M ≤ 0 := div_nonpos_of_nonpos_of_nonneg he hM.le
    have h3 : clampQ (e / M) 0 1 = 0 := by
      unfold clampQ
      have : min 1 (e / M) ≤ 0 := le_trans (min_le_right _ _) h2
      simp [max_eq_left this]
    rw [h1, h3]
    simp [clampZ, jsRound_zero]
  · have h1 : max 0 e = e := max_eq_right he.le
    have hdiv : 0 ≤ e / M := le_of_lt (div_pos he hM)
    rcases le_or_lt e M with hle | hgt
    · have hx : e / M ≤ 1 := (div_le_one hM).2 hle
      have h3 : clampQ (e / M) 0 1 = e / M := by
        unfold clampQ
        rw [min_eq_right hx, max_eq_right hdiv]
      have hlo : 0 ≤ jsRound (e / M * 100) := by
        have := jsRound_mono (a := 0) (b := e / M * 100) (by positivity)
        simpa [jsRound_zero] using this
      have hhi : jsRound (e / M * 100) ≤ 100 := by
        have hle' : e / M * 100 ≤ 100 := by nlinarith
        have := jsRound_mono hle'
        simpa [jsRound_hundred] using this
      rw [h1, h3]
      unfold clampZ
      rw [min_eq_right hhi, max_eq_right hlo]
    · have hx : 1 ≤ e / M := le_of_lt ((one_lt_div hM).2 hgt)
      have h3 : clampQ (e / M) 0 1 = 1 := by
        unfold clampQ
        rw [min_eq_left hx]
        simp
      have hge : 100 ≤ jsRound (e / M * 100) := by
        have hle' : (100 : ℚ) ≤ e / M * 100 := by nlinarith
        have := jsRound_mono hle'
        simpa [jsRound_hundred] using this
      rw [h1, h3]
      unfold clampZ
      rw [min_eq_left hge]
      norm_num [jsRound_hundred]

/-- C4: for every weighted estimate and every resolution in {5, 6, 8}, the computed
level equals `round(clamp(e / resolutionMax, 0, 1) * 100)` with resolutionMax
2500 / 900 / 300, and the result is an integer in [0, 100]. -/
theorem greedLevel_matches_spec (e res : ℚ) (hres : res = 5 ∨ res = 6 ∨ res = 8) :
    greedLevelFromEstimated e res = specLevel e res ∧
    0 ≤ greedLevelFromEstimated e res ∧ greedLevelFromEstimated e res ≤ 100 := by
  refine ⟨?_, ?_, ?_⟩
  · rcases hres with h | h | h <;> subst h <;>
      simpa [greedLevelFromEstimated, specLevel, greedMaxByRes, specResolutionMax] using
        level_round_clamp_comm e _ (by norm_num)
  · unfold greedLevelFromEstimated clampZ
    exact le_max_left _ _
  · unfold greedLevelFromEstimated clampZ
    have : min 100 (jsRound (max 0 e / greedMaxByRes res * 100)) ≤ 100 := min_le_left _ _
    omega

theorem greedLevel_matches_spec_witness :
    ((1234 : ℚ) = 5 ∨ (1234 : ℚ) = 6 ∨ (1234 : ℚ) = 8 → False) ∧
    (greedLevelFromEstimated 1234 5 = specLevel 1234 5 ∧
      0 ≤ greedLevelFromEstimated 1234 5 ∧ greedLevelFromEstimated 1234 5 ≤ 100) :=
  ⟨by norm_num, greedLevel_matches_spec 1234 5 (Or.inl rfl)⟩

/-! ## Resolution state machine (C2) -/

/-- The three discrete H3 resolutions used by the map (TS union type `5 | 6 | 8`). -/
inductive H3Res
  | r5
  | r6
  | r8
  deriving DecidableEq

/-- Source constant `CITY_ENTER_Z = 6`. -/
def CITY_ENTER_Z : ℚ := 6

/-- Source constant `CITY_EXIT_Z = 5` (one below enter: hysteresis). -/
def CITY_EXIT_Z : ℚ := 5

/-- Source constant `TOWN_ENTER_Z = 8`. -/
def TOWN_ENTER_Z : ℚ := 8

/-- Source constant `TOWN_EXIT_Z = 7` (one below enter: hysteresis). -/
def TOWN_EXIT_Z : ℚ := 7

/-- Source `getHexResWithHysteresis(nextZoom, prevRes)`. -/
def getHexResWithHysteresis (nextZoom : ℚ) (prevRes : H3Res) : H3Res :=
  match prevRes with
  | .r8 =>
    if nextZoom < TOWN_EXIT_Z then (if CITY_ENTER_Z ≤ nextZoom then .r6 else .r5) else .r8
  | .r6 =>
    if TOWN_ENTER_Z ≤ nextZoom then .r8
    else if nextZoom < CITY_EXIT_Z then .r5
    else .r6
  | .r5 =>
    if TOWN_ENTER_Z ≤ nextZoom then .r8
    else if CITY_ENTER_Z ≤ nextZoom then .r6
    else .r5

/-- The transition function exactly as the spec words it, with enter thresholds
Tmedium = 6 and Tfine = 8 and one-unit exit bands. -/
def specResolutionTransition (z : ℚ) (prev : H3Res) : H3Res :=
  match prev with
  | .r8 => if z < 8 - 1 then (if 6 ≤ z then .r6 else .r5) else .r8
  | .r6 => if 8 ≤ z then .r8 else if z < 6 - 1 then .r5 else .r6
  | .r5 => if 8 ≤ z then .r8 else if 6 ≤ z then .r6 else .r5

/-- C2: the implemented hysteresis transition agrees with the specified state machine
for every zoom value and previous resolution, and inside the hysteresis band
`7 ≤ z < 8` both Fine and Medium are fixed points (no per-frame oscillation). -/
theorem hysteresis_matches_spec (z : ℚ) (p : H3Res) :
    getHexResWithHysteresis z p = specResolutionTransition z p ∧
    (7 ≤ z ∧ z < 8 →
      getHexResWithHysteresis z .r8 = .r8 ∧ getHexResWithHysteresis z .r6 = .r6) := by
  constructor
  · cases p <;>
      simp only [getHexResWithHysteresis, specResolutionTransition,
        TOWN_EXIT_Z, TOWN_ENTER_Z, CITY_ENTER_Z, CITY_EXIT_Z] <;>
      split_ifs <;> first | rfl | (exfalso; linarith)
  · rintro ⟨h1, h2⟩
    constructor
    · simp only [getHexResWithHysteresis, TOWN_EXIT_Z]
      rw [if_neg (by linarith)]
    · simp only [getHexResWithHysteresis, TOWN_ENTER_Z, CITY_EXIT_Z]
      rw [if_neg (by linarith), if_neg (by linarith)]

theorem hysteresis_matches_spec_witness :
    getHexResWithHysteresis (15/2) H3Res.r8 = specResolutionTransition (15/2) H3Res.r8 ∧
    (7 ≤ (15/2 : ℚ) ∧ (15/2 : ℚ) < 8 →
      getHexResWithHysteresis (15/2) .r8 = .r8 ∧ getHexResWithHysteresis (15/2) .r6 = .r6) :=
  hysteresis_matches_spec (15/2) H3Res.r8

/-! ## JavaScript `Map` model: insertion-ordered association lists -/

/-- JavaScript `Map.get`: value of the first (and, for maps built by `mapSet` from
empty, only) entry with the given key. -/
def mapGet {α β : Type} [DecidableEq α] : List (α × β) → α → Option β
  | [], _ => none
  | p :: rest, k => if p.1 = k then some p.2 else mapGet rest k

/-- JavaScript `Map.set`: update the existing entry in place, else append at the end
(JS `Map` iteration is in insertion order, which the source relies on). -/
def mapSet {α β : Type} [DecidableEq α] : List (α × β) → α → β → List (α × β)
  | [], k, v => [(k, v)]
  | p :: rest, k, v => if p.1 = k then (k, v) :: rest else p :: mapSet rest k v

section MapLemmas

variable {α β : Type} [DecidableEq α]

theorem mapGet_eq_none_iff (m : List (α × β)) (k : α) :
    mapGet m k = none ↔ k ∉ m.map Prod.fst := by
  induction m with
  | nil => simp [mapGet]
  | cons p rest ih =>
    by_cases hp : p.1 = k
    · simp [mapGet, hp]
    · simp [mapGet, hp, ih, Ne.symm hp]

theorem mapGet_set_self (m : List (α × β)) (k : α) (v : β) :
    mapGet (mapSet m k v) k = some v := by
  induction m with
  | nil => simp [mapGet, mapSet]
  | cons p rest ih =>
    by_cases hp : p.1 = k
    · simp [mapGet, mapSet, hp]
    · simp [mapGet, mapSet, hp, ih]

theorem mapGet_set_ne (m : List (α × β)) (k k' : α) (v : β) (h : k' ≠ k) :
    mapGet (mapSet m k v) k' = mapGet m k' := by
  induction m with
  | nil =>
    have h' : ¬(k = k') := fun hc => h hc.symm
    simp [mapGet, mapSet, h']
  | cons p rest ih =>
    by_cases hp : p.1 = k
    · rw [mapSet, if_pos hp]
      have h1 : ¬((k, v).1 = k') := fun hc => h hc.symm
      have h2 : ¬(p.1 = k') := by rw [hp]; exact fun hc => h hc.symm
      simp [mapGet, h1, h2]
    · rw [mapSet, if_neg hp]
      by_cases hq : p.1 = k'
      · simp [mapGet, hq]
      · simp [mapGet, hq, ih]

theorem mapSet_keys_of_mem (m : List (α × β)) (k : α) (v : β)
    (h : k ∈ m.map Prod.fst) :
    (mapSet m k v).map Prod.fst = m.map Prod.fst := by
  induction m with
  | nil => simp at h
  | cons p rest ih =>
    by_cases hp : p.1 = k
    · simp [mapSet, hp]
    · have h' : k ∈ rest.map Prod.fst := by
        rcases List.mem_map.1 h with ⟨q, hq, hqk⟩
        rcases List.mem_cons.1 hq with rfl | hq'
        · exact absurd hqk hp
        · exact List.mem_map.2 ⟨q, hq', hqk⟩
      simp [mapSet, hp, ih h']

theorem mapSet_keys_of_not_mem (m : List (α × β)) (k : α) (v : β)
    (h : k ∉ m.map Prod.fst) :
    (mapSet m k v).map Prod.fst = m.map Prod.fst ++ [k] := by
  induction m with
  | nil => simp [mapSet]
  | cons p rest ih =>
    have hp : ¬(p.1 = k) := by
      intro hc
      exact h (by simp [hc])
    have h' : k ∉ rest.map Prod.fst := fun hc => h (by simp [hc])
    simp [mapSet, hp, ih h']

theorem mapSet_nodup_keys (m : List (α × β)) (k : α) (v : β)
    (h : (m.map Prod.fst).Nodup) : ((mapSet m k v).map Prod.fst).Nodup := by
  by_cases hk : k ∈ m.map Prod.fst
  · rwa [mapSet_keys_of_mem m k v hk]
  · rw [mapSet_keys_of_not_mem m k v hk]
    refine List.Nodup.append h (List.nodup_singleton k) ?_
    simpa [List.disjoint_singleton] using hk

theorem mapGet_of_mem (m : List (α × β)) (h : (m.map Prod.fst).Nodup) :
    ∀ p ∈ m, mapGet m p.1 = some p.2 := by
  induction m with
  | nil => intro p hp; simp at hp
  | cons q rest ih =>
    intro p hp
    rcases List.mem_cons.1 hp with rfl | hp'
    · simp [mapGet]
    · have hq : ¬(q.1 = p.1) := by
        intro hc
        have hmem : q.1 ∈ rest.map Prod.fst := hc ▸ List.mem_map_of_mem Prod.fst hp'
        rw [List.map_cons, List.nodup_cons] at h
        exact h.1 hmem
      have hrest : (rest.map Prod.fst).Nodup := by
        rw [List.map_cons, List.nodup_cons] at h
        exact h.2
      simpa [mapGet, hq] using ih hrest p hp'

end MapLemmas

/-! ## Offset-grid aggregation (`src/lib/mockData.ts`) -/

/-- Interface for the transcendental geometry that the source computes with
floating-point `Math` functions: the spherical-mercator forward/inverse maps,
`Math.sqrt(3)`, and sine/cosine (here taking the angle in degrees: the source's
degree-to-radian conversion is absorbed into the interface).  The aggregation
and suppression logic proved about below is independent of the actual values. -/
structure GeoApi where
  toMerc : ℚ → ℚ → ℚ × ℚ
  fromMerc : ℚ → ℚ → ℚ × ℚ
  cosDeg : ℚ → ℚ
  sinDeg : ℚ → ℚ
  sqrt3 : ℚ

/-- Source constant `HEX_COVERAGE = 1.0` ("MUST be exactly 1.0"). -/
def HEX_COVERAGE : ℚ := 1

/-- Source constant `VTX_DECIMALS = 8`. -/
def VTX_DECIMALS : ℕ := 8

/-- Source `roundTo(n, d) = Math.round(n * 10 ** d) / 10 ** d`. -/
def roundTo (n : ℚ) (d : ℕ) : ℚ := (jsRound (n * 10 ^ d) : ℚ) / 10 ^ d

/-- Source `radiusMetersForResolution` (23000 / 11000 / 2200 meters). -/
def radiusMetersForResolution : H3Res → ℚ
  | .r5 => 23000
  | .r6 => 11000
  | .r8 => 2200

/-- Source `makeHexRingMercator(cx, cy, radiusM)` (identical copies exist in
`MapShell.tsx` and `mockData.ts`): six vertices at degree angles `30 + 60k`,
converted back to geographic coordinates, rounded, then closed. -/
def makeHexRingMercatorQ (api : GeoApi) (cx cy radiusM : ℚ) : List (ℚ × ℚ) :=
  let r := radiusM * HEX_COVERAGE
  let pts := (List.range 6).map (fun k =>
    let ang : ℚ := 30 + 60 * (k : ℚ)
    let x := cx + r * api.cosDeg ang
    let y := cy + r * api.sinDeg ang
    let ll := api.fromMerc x y
    (roundTo ll.1 VTX_DECIMALS, roundTo ll.2 VTX_DECIMALS))
  pts ++ pts.take 1

/-- Source `tierForCount` in `mockData.ts` (thresholds 16 / 8 / 4 / 2). -/
def tierForCount (count : ℕ) : String :=
  if 16 ≤ count then "significant"
  else if 8 ≤ count then "notable"
  else if 4 ≤ count then "moderate"
  else if 2 ≤ count then "low"
  else "minimal"

/-- Source `minCountForResolution`: 2 at resolutions 8 and 6, else 1. -/
def minCountForResolution : H3Res → ℕ
  | .r8 => 2
  | .r6 => 2
  | .r5 => 1

/-- Source `K_ANONYMITY_THRESHOLD = 3` in `src/lib/safety.ts`. -/
def K_ANONYMITY_THRESHOLD : ℕ := 3

/-- Numeric string of a resolution, as interpolated into cell ids. -/
def resString : H3Res → String
  | .r5 => "5"
  | .r6 => "6"
  | .r8 => "8"

/-- Cell identity string `` `${resolution}:${row}:${col}` ``. -/
def offsetCellId (res : H3Res) (row col : ℤ) : String :=
  resString res ++ ":" ++ toString row ++ ":" ++ toString col

/-- The bucket stored per cell by `aggregatePointsToHexFC`. -/
structure CellBucket where
  row : ℤ
  col : ℤ
  count : ℕ
  deriving DecidableEq

/-- Row/column of the home cell of a projected point:
`row = Math.round(y / stepY)`, `col = Math.round((x - xRowOffset) / stepX)`
with `stepX = Math.sqrt(3) * radiusM`, `stepY = 1.5 * radiusM`, odd rows offset
by `stepX / 2`. -/
def homeRowCol (api : GeoApi) (res : H3Res) (p : ℚ × ℚ) : ℤ × ℤ :=
  let radiusM := radiusMetersForResolution res
  let stepX := api.sqrt3 * radiusM
  let stepY := 3/2 * radiusM
  let offsetX := stepX / 2
  let m := api.toMerc p.1 p.2
  let row := jsRound (m.2 / stepY)
  let xRowOffset : ℚ := if row % 2 = 0 then 0 else offsetX
  let col := jsRound ((m.1 - xRowOffset) / stepX)
  (row, col)

/-- The unique home-cell id string assigned to an input point. -/
def homeCellId (api : GeoApi) (res : H3Res) (p : ℚ × ℚ) : String :=
  offsetCellId res (homeRowCol api res p).1 (homeRowCol api res p).2

/-- One step of the binning loop body of `aggregatePointsToHexFC`: increment the
point's home cell's bucket, creating it with count 1 on first sight. -/
def binStep (api : GeoApi) (res : H3Res) (m : List (String × CellBucket)) (p : ℚ × ℚ) :
    List (String × CellBucket) :=
  match mapGet m (homeCellId api res p) with
  | some prev => mapSet m (homeCellId api res p) { prev with count := prev.count + 1 }
  | none => mapSet m (homeCellId api res p)
      { row := (homeRowCol api res p).1, col := (homeRowCol api res p).2, count := 1 }

/-- The `cells` map built by the binning loop of `aggregatePointsToHexFC`. -/
def binPoints (api : GeoApi) (res : H3Res) (points : List (ℚ × ℚ)) :
    List (String × CellBucket) :=
  points.foldl (binStep api res) []

/-- An output feature of `aggregatePointsToHexFC`. -/
structure AggHexFeature where
  tier : String
  cellId : String
  count : ℕ
  ring : List (ℚ × ℚ)
  deriving DecidableEq

/-- Source `aggregatePointsToHexFC(points, resolution)`: bin all points, then emit one
polygon feature per cell whose count is at least `minCountForResolution`. -/
def aggregatePointsToHexFC (api : GeoApi) (points : List (ℚ × ℚ)) (res : H3Res) :
    List AggHexFeature :=
  let radiusM := radiusMetersForResolution res
  let stepX := api.sqrt3 * radiusM
  let stepY := 3/2 * radiusM
  let offsetX := stepX / 2
  let minCount := minCountForResolution res
  ((binPoints api res points).filter (fun cb => minCount ≤ cb.2.count)).map (fun cb =>
    let xRowOffset : ℚ := if cb.2.row % 2 = 0 then 0 else offsetX
    let cx := cb.2.col * stepX + xRowOffset
    let cy := cb.2.row * stepY
    { tier := tierForCount cb.2.count, cellId := cb.1, count := cb.2.count,
      ring := makeHexRingMercatorQ api cx cy radiusM })

/-- Sum of the raw per-cell counts held in the binning map. -/
def sumBinCounts (m : List (String × CellBucket)) : ℕ := (m.map (fun cb => cb.2.count)).sum

/-- Sum of the raw per-cell counts over the emitted features. -/
def sumFeatureCounts (fs : List AggHexFeature) : ℕ := (fs.map (fun f => f.count)).sum

/-! ## Counting lemmas for the binning loop (C3, C10) -/

/-- Raw count held for a cell id in the binning map (0 when absent). -/
def countOf (m : List (String × CellBucket)) (c : String) : ℕ :=
  match mapGet m c with
  | some b => b.count
  | none => 0

theorem sumBinCounts_set_some (m : List (String × CellBucket)) (k : String)
    (b v : CellBucket) (h : mapGet m k = some b) :
    sumBinCounts (mapSet m k v) + b.count = sumBinCounts m + v.count := by
  induction m with
  | nil => simp [mapGet] at h
  | cons p rest ih =>
    by_cases hp : p.1 = k
    · rw [mapGet, if_pos hp] at h
      cases h
      rw [mapSet, if_pos hp]
      simp [sumBinCounts]
      omega
    · rw [mapGet, if_neg hp] at h
      rw [mapSet, if_neg hp]
      have := ih h
      simp [sumBinCounts] at this ⊢
      omega

theorem sumBinCounts_set_none (m : List (String × CellBucket)) (k : String)
    (v : CellBucket) (h : mapGet m k = none) :
    sumBinCounts (mapSet m k v) = sumBinCounts m + v.count := by
  induction m with
  | nil => simp [mapSet, sumBinCounts]
  | cons p rest ih =>
    by_cases hp : p.1 = k
    · rw [mapGet, if_pos hp] at h
      simp at h
    · rw [mapGet, if_neg hp] at h
      rw [mapSet, if_neg hp]
      have := ih h
      simp [sumBinCounts] at this ⊢
      omega

theorem binStep_sum (api : GeoApi) (res : H3Res) (m : List (String × CellBucket))
    (p : ℚ × ℚ) : sumBinCounts (binStep api res m p) = sumBinCounts m + 1 := by
  unfold binStep
  cases h : mapGet m (homeCellId api res p) with
  | some prev =>
    have := sumBinCounts_set_some m _ prev { prev with count := prev.count + 1 } h
    simp at this ⊢
    omega
  | none =>
    have := sumBinCounts_set_none m (homeCellId api res p)
      { row := (homeRowCol api res p).1, col := (homeRowCol api res p).2, count := 1 } h
    simp at this ⊢
    omega

theorem binStep_count (api : GeoApi) (res : H3Res) (m : List (String × CellBucket))
    (p : ℚ × ℚ) (c : String) :
    countOf (binStep api res m p) c
      = countOf m c + (if homeCellId api res p = c then 1 else 0) := by
  by_cases hc : homeCellId api res p = c
  · subst hc
    unfold binStep countOf
    cases h : mapGet m (homeCellId api res p) with
    | some prev => rw [mapGet_set_self]; simp
    | none => rw [mapGet_set_self]; simp
  · have hne : c ≠ homeCellId api res p := fun hh => hc hh.symm
    unfold binStep countOf
    cases h : mapGet m (homeCellId api res p) with
    | some prev => rw [mapGet_set_ne _ _ _ _ hne]; simp [hc]
    | none => rw [mapGet_set_ne _ _ _ _ hne]; simp [hc]

theorem binFold_sum (api : GeoApi) (res : H3Res) :
    ∀ (points : List (ℚ × ℚ)) (m : List (String × CellBucket)),
      sumBinCounts (points.foldl (binStep api res) m) = sumBinCounts m + points.length := by
  intro points
  induction points with
  | nil => intro m; simp
  | cons p rest ih =>
    intro m
    rw [List.foldl_cons, ih, binStep_sum]
    simp
    omega

theorem binFold_count (api : GeoApi) (res : H3Res) :
    ∀ (points : List (ℚ × ℚ)) (m : List (String × CellBucket)) (c : String),
      countOf (points.foldl (binStep api res) m) c
        = countOf m c + (points.filter (fun p => homeCellId api res p = c)).length := by
  intro points
  induction points with
  | nil => intro m c; simp
  | cons p rest ih =>
    intro m c
    rw [List.foldl_cons, ih, binStep_count]
    by_cases hc : homeCellId api res p = c
    · simp [List.filter_cons, hc]
      omega
    · simp [List.filter_cons, hc]

theorem binStep_nodup (api : GeoApi) (res : H3Res) (m : List (String × CellBucket))
    (p : ℚ × ℚ) (h : (m.map Prod.fst).Nodup) :
    ((binStep api res m p).map Prod.fst).Nodup := by
  unfold binStep
  cases mapGet m (homeCellId api res p) <;> exact mapSet_nodup_keys _ _ _ h

theorem binPoints_nodup (api : GeoApi) (res : H3Res) (points : List (ℚ × ℚ)) :
    ((binPoints api res points).map Prod.fst).Nodup := by
  have aux : ∀ (ps : List (ℚ × ℚ)) (m : List (String × CellBucket)),
      (m.map Prod.fst).Nodup → ((ps.foldl (binStep api res) m).map Prod.fst).Nodup := by
    intro ps
    induction ps with
    | nil => intro m hm; simpa using hm
    | cons p rest ih =>
      intro m hm
      rw [List.foldl_cons]
      exact ih _ (binStep_nodup api res m p hm)
  exact aux points [] (by simp)

theorem mapSet_mem_cases {α β : Type} [DecidableEq α] (m : List (α × β)) (k : α) (v : β) :
    ∀ cb ∈ mapSet m k v, cb = (k, v) ∨ cb ∈ m := by
  induction m with
  | nil => intro cb hcb; simp [mapSet] at hcb; simp [hcb]
  | cons p rest ih =>
    intro cb hcb
    by_cases hp : p.1 = k
    · rw [mapSet, if_pos hp] at hcb
      rcases List.mem_cons.1 hcb with rfl | h'
      · exact Or.inl rfl
      · exact Or.inr (List.mem_cons_of_mem _ h')
    · rw [mapSet, if_neg hp] at hcb
      rcases List.mem_cons.1 hcb with rfl | h'
      · exact Or.inr (List.mem_cons_self _ _)
      · rcases ih cb h' with h'' | h''
        · exact Or.inl h''
        · exact Or.inr (List.mem_cons_of_mem _ h'')

theorem binPoints_count_pos (api : GeoApi) (res : H3Res) (points : List (ℚ × ℚ)) :
    ∀ cb ∈ binPoints api res points, 1 ≤ cb.2.count := by
  have aux : ∀ (ps : List (ℚ × ℚ)) (m : List (String × CellBucket)),
      (∀ cb ∈ m, 1 ≤ cb.2.count) →
      ∀ cb ∈ ps.foldl (binStep api res) m, 1 ≤ cb.2.count := by
    intro ps
    induction ps with
    | nil => intro m hm; simpa using hm
    | cons p rest ih =>
      intro m hm
      rw [List.foldl_cons]
      apply ih
      intro cb hcb
      unfold binStep at hcb
      cases h : mapGet m (homeCellId api res p) with
      | some prev =>
        rw [h] at hcb
        rcases mapSet_mem_cases _ _ _ cb hcb with rfl | h'
        · simp
        · exact hm cb h'
      | none =>
        rw [h] at hcb
        rcases mapSet_mem_cases _ _ _ cb hcb with rfl | h'
        · simp
        · exact hm cb h'
  exact aux points [] (by simp)

/-- C10: every feature emitted by the offset-grid aggregator has raw count at least
the per-resolution minimum (2 at resolutions 6 and 8, 1 at resolution 5); every
binned cell meeting the minimum is emitted (so exactly the cells below it are
silently omitted); and this applied minimum is strictly below the separately
defined `K_ANONYMITY_THRESHOLD = 3`. -/
theorem aggregator_min_count (api : GeoApi) (points : List (ℚ × ℚ)) (res : H3Res) :
    (∀ f ∈ aggregatePointsToHexFC api points res, minCountForResolution res ≤ f.count) ∧
    (∀ cb ∈ binPoints api res points, minCountForResolution res ≤ cb.2.count →
      ∃ f ∈ aggregatePointsToHexFC api points res, f.cellId = cb.1 ∧ f.count = cb.2.count) ∧
    minCountForResolution res < K_ANONYMITY_THRESHOLD := by
  refine ⟨?_, ?_, ?_⟩
  · intro f hf
    unfold aggregatePointsToHexFC at hf
    simp only [List.mem_map, List.mem_filter, decide_eq_true_eq] at hf
    rcases hf with ⟨cb, ⟨_, hmin⟩, rfl⟩
    exact hmin
  · intro cb hcb hmin
    unfold aggregatePointsToHexFC
    refine ⟨_, List.mem_map_of_mem _ (List.mem_filter.2 ⟨hcb, by simpa using hmin⟩), rfl, rfl⟩
  · cases res <;> simp [minCountForResolution, K_ANONYMITY_THRESHOLD]

/-- A concrete instantiation of the geometry interface, used to evaluate the
aggregator on concrete inputs (the counting claims hold for every instance). -/
def toyGeoApi : GeoApi where
  toMerc := fun lon lat => (lon, lat)
  fromMerc := fun x y => (x, y)
  cosDeg := fun _ => 0
  sinDeg := fun _ => 0
  sqrt3 := 2

theorem toy_binPoints_eval :
    binPoints toyGeoApi H3Res.r6 [((0 : ℚ), (0 : ℚ)), ((0 : ℚ), (0 : ℚ))]
      = [("6:0:0", ⟨0, 0, 2⟩)] := by
  norm_num [binPoints, binStep, homeCellId, homeRowCol, offsetCellId, mapGet, mapSet,
    toyGeoApi, radiusMetersForResolution, jsRound, resString]
  decide

theorem aggregator_min_count_witness :
    ∃ f ∈ aggregatePointsToHexFC toyGeoApi [((0 : ℚ), (0 : ℚ)), ((0 : ℚ), (0 : ℚ))] H3Res.r6,
      f.cellId = "6:0:0" ∧ f.count = 2 := by
  have h := (aggregator_min_count toyGeoApi
    [((0 : ℚ), (0 : ℚ)), ((0 : ℚ), (0 : ℚ))] H3Res.r6).2.1
    ("6:0:0", ⟨0, 0, 2⟩) (by rw [toy_binPoints_eval]; exact List.mem_singleton.2 rfl)
    (by norm_num [minCountForResolution])
  simpa using h

/-- C3 counterexample: a single finite point at the origin, aggregated at medium
resolution, falls inside the lattice (there is no land mask in this function) yet
the aggregation emits no cell at all, because its home cell's count 1 is below the
per-resolution minimum 2.  The sum of emitted raw counts is 0, not 1. -/
theorem toy_binPoints_single_eval :
    binPoints toyGeoApi H3Res.r6 [((0 : ℚ), (0 : ℚ))] = [("6:0:0", ⟨0, 0, 1⟩)] := by
  norm_num [binPoints, binStep, homeCellId, homeRowCol, offsetCellId, mapGet, mapSet,
    toyGeoApi, radiusMetersForResolution, jsRound, resString]
  decide

theorem count_conservation_cex :
    sumFeatureCounts (aggregatePointsToHexFC toyGeoApi [((0 : ℚ), (0 : ℚ))] H3Res.r6) = 0 ∧
    aggregatePointsToHexFC toyGeoApi [((0 : ℚ), (0 : ℚ))] H3Res.r6 = [] ∧
    ([((0 : ℚ), (0 : ℚ))] : List (ℚ × ℚ)).length = 1 := by
  have hagg : aggregatePointsToHexFC toyGeoApi [((0 : ℚ), (0 : ℚ))] H3Res.r6 = [] := by
    unfold aggregatePointsToHexFC
    rw [toy_binPoints_single_eval]
    norm_num [minCountForResolution]
  exact ⟨by rw [hagg]; rfl, hagg, rfl⟩

/-- C3 (amended): every input point is assigned to exactly one home cell and the
binning map conserves counts exactly (its counts sum to the number of input points,
and each cell's count is the number of points whose home cell it is); the emitted
features conserve only the counts of cells meeting the per-resolution minimum
count, so full conservation over the emitted cells holds at resolution 5
(minimum 1) but not in general at resolutions 6 and 8 (minimum 2). -/
theorem count_conservation_amended (api : GeoApi) (points : List (ℚ × ℚ)) (res : H3Res) :
    sumBinCounts (binPoints api res points) = points.length ∧
    (∀ cb ∈ binPoints api res points,
      cb.2.count = (points.filter (fun p => homeCellId api res p = cb.1)).length) ∧
    sumFeatureCounts (aggregatePointsToHexFC api points res)
      = sumBinCounts ((binPoints api res points).filter
          (fun cb => minCountForResolution res ≤ cb.2.count)) ∧
    (res = H3Res.r5 →
      sumFeatureCounts (aggregatePointsToHexFC api points res) = points.length) := by
  have hsum : sumBinCounts (binPoints api res points) = points.length := by
    have := binFold_sum api res points []
    simpa [binPoints, sumBinCounts] using this
  have hcount : ∀ cb ∈ binPoints api res points,
      cb.2.count = (points.filter (fun p => homeCellId api res p = cb.1)).length := by
    intro cb hcb
    have hget := mapGet_of_mem _ (binPoints_nodup api res points) cb hcb
    have hfold := binFold_count api res points [] cb.1
    have h0 : countOf (binPoints api res points) cb.1 = cb.2.count := by
      unfold countOf
      rw [hget]
    unfold binPoints at h0
    rw [h0] at hfold
    simpa [countOf, mapGet] using hfold
  have hfeat : sumFeatureCounts (aggregatePointsToHexFC api points res)
      = sumBinCounts ((binPoints api res points).filter
          (fun cb => minCountForResolution res ≤ cb.2.count)) := by
    unfold aggregatePointsToHexFC sumFeatureCounts sumBinCounts
    rw [List.map_map]
    rfl
  refine ⟨hsum, hcount, hfeat, ?_⟩
  intro hres
  subst hres
  have hall : (binPoints api H3Res.r5 points).filter
      (fun cb => minCountForResolution H3Res.r5 ≤ cb.2.count) = binPoints api H3Res.r5 points := by
    apply List.filter_eq_self.2
    intro cb hcb
    have := binPoints_count_pos api H3Res.r5 points cb hcb
    simp [minCountForResolution]
    omega
  rw [hfeat, hall, hsum]

theorem count_conservation_amended_witness :
    sumFeatureCounts (aggregatePointsToHexFC toyGeoApi [((0 : ℚ), (0 : ℚ))] H3Res.r5)
      = ([((0 : ℚ), (0 : ℚ))] : List (ℚ × ℚ)).length :=
  (count_conservation_amended toyGeoApi [((0 : ℚ), (0 : ℚ))] H3Res.r5).2.2.2 rfl

/-! ## Point-in-polygon tester (C7) -/

/-- GeoJSON geometry as consumed by `pointInGeoJsonPolygon`: a polygon is a list of
rings (outer first, then holes), a multi-polygon a list of polygons. -/
inductive Geom where
  | polygon (rings : List (List (ℚ × ℚ)))
  | multiPolygon (polys : List (List (List (ℚ × ℚ))))
  deriving DecidableEq

/-- One edge test of the even-odd ray cast in `pointInRing`:
`yi > y !== yj > y && x < ((xj - xi) * (y - yi)) / (yj - yi) + xi`
(the source's `+ 0.0` only normalises `-0`), with `pj` the previous vertex and
`pi` the current one.  Rational division by zero is total (and the guard makes
the quotient irrelevant exactly when `yj = yi`, as in the source's `&&`). -/
def crossesEdge (pt pj pv : ℚ × ℚ) : Bool :=
  decide ((pv.2 > pt.2) ≠ (pj.2 > pt.2)) &&
  decide (pt.1 < (pj.1 - pv.1) * (pt.2 - pv.2) / (pj.2 - pv.2) + pv.1)

/-- Consecutive pairs `(previous, current)` along a walk that starts at `s`. -/
def chainEdges {α : Type} : α → List α → List (α × α)
  | _, [] => []
  | s, x :: xs => (s, x) :: chainEdges x xs

/-- The cyclic edge list traversed by the source loop
`for (i = 0, j = ring.length - 1; i < ring.length; j = i++)`:
pairs `(ring[j], ring[i])`, starting with `j = ring.length - 1`. -/
def ringEdges (ring : List (ℚ × ℚ)) : List ((ℚ × ℚ) × (ℚ × ℚ)) :=
  match ring with
  | [] => []
  | a :: rest => chainEdges ((a :: rest).getLastD a) (a :: rest)

/-- Source `pointInRing(pt, ring)`: even-odd ray casting. -/
def pointInRing (pt : ℚ × ℚ) (ring : List (ℚ × ℚ)) : Bool :=
  (ringEdges ring).foldl
    (fun inside e => if crossesEdge pt e.1 e.2 then !inside else inside) false

/-- Source `pointInGeoJsonPolygon(pt, geom)`. -/
def pointInGeoJsonPolygon (pt : ℚ × ℚ) (geom : Geom) : Bool :=
  match geom with
  | .polygon rings =>
    let outer := rings.headD []
    if outer.isEmpty then false
    else if !pointInRing pt outer then false
    else (rings.drop 1).all (fun h => !pointInRing pt h)
  | .multiPolygon polys =>
    polys.any (fun poly =>
      let outer := poly.headD []
      if outer.isEmpty then false
      else if !pointInRing pt outer then false
      else (poly.drop 1).all (fun h => !pointInRing pt h))

/-- The spec's wording of containment for one polygon (outer ring plus holes). -/
def specContainsPoly (pt : ℚ × ℚ) (rings : List (List (ℚ × ℚ))) : Prop :=
  pointInRing pt (rings.headD []) = true ∧ ∀ h ∈ rings.drop 1, pointInRing pt h = false

/-- The spec's wording of containment for a GeoJSON geometry. -/
def specContains (pt : ℚ × ℚ) (geom : Geom) : Prop :=
  match geom with
  | .polygon rings => specContainsPoly pt rings
  | .multiPolygon polys => ∃ poly ∈ polys, specContainsPoly pt poly

theorem pointInRing_nil (pt : ℚ × ℚ) : pointInRing pt [] = false := rfl

theorem crossesEdge_self (pt A : ℚ × ℚ) : crossesEdge pt A A = false := by
  simp [crossesEdge]

theorem crossesEdge_symm (pt A B : ℚ × ℚ) : crossesEdge pt A B = crossesEdge pt B A := by
  unfold crossesEdge
  by_cases hy : A.2 = B.2
  · simp [hy]
  · have h1 : B.2 - A.2 ≠ 0 := sub_ne_zero.2 (fun hc => hy hc.symm)
    have h2 : A.2 - B.2 ≠ 0 := sub_ne_zero.2 hy
    have hthr : (A.1 - B.1) * (pt.2 - B.2) / (A.2 - B.2) + B.1
        = (B.1 - A.1) * (pt.2 - A.2) / (B.2 - A.2) + A.1 := by
      field_simp
      ring
    rw [hthr, decide_eq_decide.2 (ne_comm (a := B.2 > pt.2) (b := A.2 > pt.2))]

theorem toggle_eq_xor (b c : Bool) : (if c then !b else b) = xor b c := by
  cases b <;> cases c <;> rfl

theorem foldl_xor_chain {α : Type} (f : α → Bool) :
    ∀ (l : List α) (s : α) (init : Bool),
      (chainEdges s l).foldl (fun b e => xor b (xor (f e.1) (f e.2))) init
        = xor init (xor (f s) (f (l.getLastD s))) := by
  intro l
  induction l with
  | nil => intro s init; simp [chainEdges]
  | cons x xs ih =>
    intro s init
    rw [chainEdges, List.foldl_cons, ih x, List.getLastD_cons]
    cases init <;> cases f s <;> cases f x <;> cases f (xs.getLastD x) <;> rfl

theorem chainEdges_mem {α : Type} :
    ∀ (l : List α) (s : α) (e : α × α), e ∈ chainEdges s l →
      (e.1 = s ∨ e.1 ∈ l) ∧ e.2 ∈ l := by
  intro l
  induction l with
  | nil => intro s e he; simp [chainEdges] at he
  | cons x xs ih =>
    intro s e he
    rw [chainEdges] at he
    rcases List.mem_cons.1 he with rfl | he'
    · exact ⟨Or.inl rfl, List.mem_cons_self _ _⟩
    · rcases ih x e he' with ⟨h1, h2⟩
      refine ⟨?_, List.mem_cons_of_mem _ h2⟩
      rcases h1 with h1 | h1
      · exact Or.inr (h1 ▸ List.mem_cons_self _ _)
      · exact Or.inr (List.mem_cons_of_mem _ h1)

theorem getLastD_mem {α : Type} : ∀ (l : List α) (d : α), l ≠ [] → l.getLastD d ∈ l := by
  intro l
  induction l with
  | nil => intro d h; exact absurd rfl h
  | cons x xs ih =>
    intro d _
    rw [List.getLastD_cons]
    cases xs with
    | nil => simp [List.getLastD]
    | cons y ys => exact List.mem_cons_of_mem _ (ih x (by simp))

/-- Ray casting over a ring whose vertices take at most two distinct values always
reports "outside": each geometric edge is traversed in both directions equally
often, and opposite traversals toggle identically. -/
theorem pointInRing_two_values (pt A B : ℚ × ℚ) (ring : List (ℚ × ℚ))
    (h : ∀ v ∈ ring, v = A ∨ v = B) : pointInRing pt ring = false := by
  cases ring with
  | nil => rfl
  | cons a rest =>
    unfold pointInRing ringEdges
    set s := ((a :: rest).getLastD a) with hs
    have hsmem : s ∈ a :: rest := by
      rw [hs]
      exact getLastD_mem _ _ (by simp)
    set f : (ℚ × ℚ) → Bool := fun v => decide (v = B) with hf
    have hedge : ∀ e ∈ chainEdges s (a :: rest),
        crossesEdge pt e.1 e.2 = (crossesEdge pt A B && xor (f e.1) (f e.2)) := by
      intro e he
      rcases chainEdges_mem _ s e he with ⟨h1, h2⟩
      have hu : e.1 = A ∨ e.1 = B := by
        rcases h1 with h1 | h1
        · exact h (e.1) (h1 ▸ hsmem)
        · exact h _ h1
      have hw : e.2 = A ∨ e.2 = B := h _ h2
      rcases hu with hu | hu <;> rcases hw with hw | hw <;> rw [hu, hw] <;>
        simp [hf, crossesEdge_self, crossesEdge_symm pt B A] <;>
        by_cases hAB : A = B <;>
        simp [hAB, crossesEdge_self]
    rw [List.foldl_ext (g := fun b e => xor b (crossesEdge pt A B && xor (f e.1) (f e.2)))
      (H := by intro b e he; rw [toggle_eq_xor, hedge e he])]
    by_cases hc : crossesEdge pt A B = true
    · rw [List.foldl_ext (g := fun b e => xor b (xor (f e.1) (f e.2)))
        (H := by intro b e he; rw [hc, Bool.true_and])]
      rw [foldl_xor_chain]
      have hlast : (a :: rest).getLastD s = s := by
        rw [List.getLastD_cons]
        rw [hs, List.getLastD_cons]
      rw [hlast]
      cases f s <;> rfl
    · have hc' : crossesEdge pt A B = false := Bool.eq_false_iff.2 hc
      rw [List.foldl_ext (g := fun b _ => b)
        (H := by intro b e he; rw [hc', Bool.false_and, Bool.xor_false])]
      simp

/-- The containment test for one polygon (outer ring plus holes), as computed by
both branches of `pointInGeoJsonPolygon`, agrees with the spec's wording. -/
theorem polyContains_iff (pt : ℚ × ℚ) (rings : List (List (ℚ × ℚ))) :
    ((if (rings.headD []).isEmpty then false
      else if !pointInRing pt (rings.headD []) then false
      else (rings.drop 1).all (fun h => !pointInRing pt h)) = true)
      ↔ specContainsPoly pt rings := by
  unfold specContainsPoly
  by_cases hout : rings.headD [] = []
  · rw [hout]
    simp [pointInRing_nil pt]
  · have hne : ((rings.headD []).isEmpty) = false := by
      simpa [List.isEmpty_iff] using hout
    rw [hne]
    cases hr : pointInRing pt (rings.headD []) with
    | false => simp [hr]
    | true => simp [List.all_eq_true]

/-- C7: containment in a Polygon holds iff the point is inside the outer ring under
even-odd ray casting and inside none of the hole rings; containment in a
MultiPolygon holds iff at least one part's outer ring contains the point and none
of that part's holes do; and any ring with fewer than 3 effective (distinct)
vertices contains no point. -/
theorem point_in_polygon_spec (pt : ℚ × ℚ) (geom : Geom) :
    (pointInGeoJsonPolygon pt geom = true ↔ specContains pt geom) ∧
    (∀ ring : List (ℚ × ℚ), ring.dedup.length < 3 →
      ∀ q : ℚ × ℚ, pointInRing q ring = false) := by
  constructor
  · cases geom with
    | polygon rings =>
      unfold pointInGeoJsonPolygon specContains
      exact polyContains_iff pt rings
    | multiPolygon polys =>
      unfold pointInGeoJsonPolygon specContains
      rw [List.any_eq_true]
      constructor
      · rintro ⟨poly, hmem, hp⟩
        exact ⟨poly, hmem, (polyContains_iff pt poly).1 hp⟩
      · rintro ⟨poly, hmem, hp⟩
        exact ⟨poly, hmem, (polyContains_iff pt poly).2 hp⟩
  · intro ring hdedup q
    have hsub : ∀ v ∈ ring, v ∈ ring.dedup := fun v hv => List.mem_dedup.2 hv
    match hd : ring.dedup, hdedup with
    | [], _ =>
      apply pointInRing_two_values q 0 0
      intro v hv
      have := hsub v hv
      rw [hd] at this
      simp at this
    | [A], _ =>
      apply pointInRing_two_values q A A
      intro v hv
      have := hsub v hv
      rw [hd] at this
      simp at this
      simp [this]
    | [A, B], _ =>
      apply pointInRing_two_values q A B
      intro v hv
      have := hsub v hv
      rw [hd] at this
      simpa using this
    | A :: B :: C :: rest, hlen =>
      exfalso
      simp at hlen
      omega

/-- Witness for `point_in_polygon_spec`: the degenerate two-vertex ring
`[(0,0),(1,1)]` has fewer than 3 distinct vertices, and indeed contains no point
(checked at the origin); the containment equivalence is instantiated on a
concrete triangle. -/
theorem point_in_polygon_spec_witness :
    pointInRing ((0 : ℚ), (0 : ℚ)) [((0 : ℚ), (0 : ℚ)), ((1 : ℚ), (1 : ℚ))] = false ∧
    (pointInGeoJsonPolygon ((0 : ℚ), (0 : ℚ))
        (Geom.polygon [[((-1 : ℚ), (-1 : ℚ)), ((1 : ℚ), (-1 : ℚ)), ((0 : ℚ), (2 : ℚ))]]) = true ↔
      specContains ((0 : ℚ), (0 : ℚ))
        (Geom.polygon [[((-1 : ℚ), (-1 : ℚ)), ((1 : ℚ), (-1 : ℚ)), ((0 : ℚ), (2 : ℚ))]])) :=
  ⟨(point_in_polygon_spec ((0 : ℚ), (0 : ℚ)) (Geom.polygon [])).2
      [((0 : ℚ), (0 : ℚ)), ((1 : ℚ), (1 : ℚ))]
      (lt_of_le_of_lt (List.Sublist.length_le (List.dedup_sublist _)) (by norm_num))
      ((0 : ℚ), (0 : ℚ)),
    (point_in_polygon_spec ((0 : ℚ), (0 : ℚ))
      (Geom.polygon [[((-1 : ℚ), (-1 : ℚ)), ((1 : ℚ), (-1 : ℚ)), ((0 : ℚ), (2 : ℚ))]])).1⟩

/-! ## POI kinds and weighted estimates (`MapShell.tsx`) -/

/-- The six POI kinds (TS union type `PoiKind`). -/
inductive PoiKind
  | synagogue
  | jcc
  | kosher
  | mikveh
  | jewish_school
  | jewish_camp
  deriving DecidableEq

/-- Source `ALL_POI_KINDS`. -/
def ALL_POI_KINDS : List PoiKind :=
  [.synagogue, .jcc, .kosher, .mikveh, .jewish_school, .jewish_camp]

/-- Source `POI_ESTIMATE_WEIGHT`. -/
def POI_ESTIMATE_WEIGHT : PoiKind → ℚ
  | .synagogue => 250
  | .jcc => 150
  | .kosher => 40
  | .mikveh => 80
  | .jewish_school => 200
  | .jewish_camp => 300

/-- Per-kind counters (`Record<PoiKind, number>` built by `createEmptyPoiCounts`). -/
structure PoiCounts where
  synagogue : ℕ
  jcc : ℕ
  kosher : ℕ
  mikveh : ℕ
  jewish_school : ℕ
  jewish_camp : ℕ
  deriving DecidableEq

/-- Source `createEmptyPoiCounts()`. -/
def emptyPoiCounts : PoiCounts := ⟨0, 0, 0, 0, 0, 0⟩

def countFor (c : PoiCounts) : PoiKind → ℕ
  | .synagogue => c.synagogue
  | .jcc => c.jcc
  | .kosher => c.kosher
  | .mikveh => c.mikveh
  | .jewish_school => c.jewish_school
  | .jewish_camp => c.jewish_camp

/-- One `counts[kind] = (counts[kind] ?? 0) + 1` update. -/
def incrementCount (c : PoiCounts) : PoiKind → PoiCounts
  | .synagogue => { c with synagogue := c.synagogue + 1 }
  | .jcc => { c with jcc := c.jcc + 1 }
  | .kosher => { c with kosher := c.kosher + 1 }
  | .mikveh => { c with mikveh := c.mikveh + 1 }
  | .jewish_school => { c with jewish_school := c.jewish_school + 1 }
  | .jewish_camp => { c with jewish_camp := c.jewish_camp + 1 }

/-- Source `getEstimatedFromPoiCounts(counts)`: weighted sum over all kinds, rounded,
clamped to be positive (the `isFinite` guard is vacuous over `ℚ`). -/
def getEstimatedFromPoiCounts (c : PoiCounts) : ℚ :=
  let total := (ALL_POI_KINDS.map (fun k => (countFor c k : ℚ) * POI_ESTIMATE_WEIGHT k)).sum
  let rounded := jsRound total
  if 0 < rounded then (rounded : ℚ) else 0

/-- A separator character for the `replace(/[\s-]+/g, "_")` in `normalizePoiKind`. -/
def isSepChar (c : Char) : Bool := c.isWhitespace || c = '-'

/-- Collapse every run of whitespace/hyphen characters into a single underscore
(the `replace(/[\s-]+/g, "_")` of the source), tracking whether the previous
character belonged to a separator run. -/
def collapseGo : Bool → List Char → List Char
  | _, [] => []
  | prevSep, c :: rest =>
    if isSepChar c then
      if prevSep then collapseGo true rest else '_' :: collapseGo true rest
    else c :: collapseGo false rest

def collapseSeps (l : List Char) : List Char := collapseGo false l

/-- `trim()` at the character-list level. -/
def jsTrim (l : List Char) : List Char :=
  ((l.dropWhile Char.isWhitespace).reverse.dropWhile Char.isWhitespace).reverse

/-- `toLowerCase()` at the character-list level. -/
def jsToLower (l : List Char) : List Char := l.map Char.toLower

/-- The `String(raw ?? "").trim().toLowerCase().replace(/[\s-]+/g, "_")` pipeline. -/
def normalizeKindValue (s : String) : String :=
  String.mk (collapseSeps (jsToLower (jsTrim s.data)))

/-- Source `normalizePoiKind(raw)`. -/
def normalizePoiKind (raw : Option String) : Option PoiKind :=
  let value := normalizeKindValue (raw.getD "")
  if value = "" then none
  else if value = "synagogue" ∨ value = "shul" then some .synagogue
  else if value = "jcc" ∨ value = "jewish_community_center" ∨
      value = "jewish_community_centre" ∨ value = "jewish_community_ctr" ∨
      value = "jewish_community_ctr." then some .jcc
  else if value = "kosher" ∨ value = "kosher_amenity" then some .kosher
  else if value = "mikveh" ∨ value = "mikvah" then some .mikveh
  else if value = "jewish_school" ∨ value = "school" ∨ value = "yeshiva" then
    some .jewish_school
  else if value = "jewish_camp" ∨ value = "camp" ∨ value = "summer_camp" then
    some .jewish_camp
  else none

/-- An input POI feature: `properties.kind`, `properties.type`,
`geometry.coordinates`. -/
structure PoiFeature where
  kind : Option String
  typeTag : Option String
  coordinates : List ℚ
  deriving DecidableEq

/-- Longitude/latitude of a POI feature when `coordinates` has at least two entries
(the source skips features with fewer, and non-finite numbers cannot arise in `ℚ`). -/
def poiLonLat (f : PoiFeature) : Option (ℚ × ℚ) :=
  match f.coordinates with
  | lon :: lat :: _ => some (lon, lat)
  | _ => none

/-- `normalizePoiKind(f?.properties?.kind) ?? normalizePoiKind(f?.properties?.type)`. -/
def poiKindOf (f : PoiFeature) : Option PoiKind :=
  (normalizePoiKind f.kind).orElse (fun _ => normalizePoiKind f.typeTag)

/-! ## Sparse hex build (`buildSparseHexesFromPois`, C1, C5, C8) -/

/-- Interface for the external `h3-js` functions used by the sparse build:
`latLngToCell(lat, lng, res)`, `gridDisk(cell, 1)`, `cellToBoundary(cell, true)`
and the optional `cellArea` in km².  Cells are strings, as in `h3-js`.  Every
theorem below about the build holds for an arbitrary instance; concrete toy
instances (mirroring h3's documented behaviour) evaluate it on concrete inputs. -/
structure H3Api where
  latLngToCell : ℚ → ℚ → H3Res → String
  gridDisk : String → List String
  cellToBoundary : String → List (ℚ × ℚ)
  cellArea : String → Option ℚ

/-- Source `MAX_SPARSE_HEX_CELLS = 120000`. -/
def MAX_SPARSE_HEX_CELLS : ℕ := 120000

/-- Source `tierForEstimate` in `MapShell.tsx` (thresholds 16 / 8 / 4 / 2). -/
def tierForEstimate (estimate : ℚ) : String :=
  if 16 ≤ estimate then "significant"
  else if 8 ≤ estimate then "notable"
  else if 4 ≤ estimate then "moderate"
  else if 2 ≤ estimate then "low"
  else "minimal"

/-- Fallback cell areas of `getCellAreaKm2` (252 / 36 / 0.74 km²). -/
def fallbackAreaKm2 : H3Res → ℚ
  | .r5 => 252
  | .r6 => 36
  | .r8 => 74/100

/-- Source `getCellAreaKm2(cell, resolution)`: use the h3 cell area when it is a
finite positive number, else the per-resolution fallback. -/
def getCellAreaKm2 (api : H3Api) (cell : String) (res : H3Res) : ℚ :=
  match api.cellArea cell with
  | some v => if 0 < v then v else fallbackAreaKm2 res
  | none => fallbackAreaKm2 res

/-- The `centerEstimates` map of `buildSparseHexesFromPois`: per-cell counts of the
features whose raw `properties.kind` is exactly the string `"synagogue"`. -/
def centerEstimates (api : H3Api) (features : List PoiFeature) (res : H3Res) :
    List (String × ℚ) :=
  features.foldl (fun m f =>
    if f.kind ≠ some "synagogue" then m
    else match poiLonLat f with
      | none => m
      | some ll => mapSet m (api.latLngToCell ll.2 ll.1 res)
          ((mapGet m (api.latLngToCell ll.2 ll.1 res)).getD 0 + 1)) []

/-- The halo-spreading loop of `buildSparseHexesFromPois`: each center cell spreads
`0.25` of its own count into each `gridDisk` neighbor, keeping the maximum of the
existing value and the halo. -/
def spreadHalo (api : H3Api) (center : List (String × ℚ)) : List (String × ℚ) :=
  center.foldl (fun est cb =>
    if cb.2 * (1/4) ≤ 0 then est
    else (api.gridDisk cb.1).foldl (fun est2 n =>
      if n = cb.1 then est2
      else mapSet est2 n (max ((mapGet est2 n).getD 0) (cb.2 * (1/4)))) est) center

/-- One row of the sparse build before feature assembly. -/
structure SparseRow where
  cell : String
  boundary : List (ℚ × ℚ)
  estimate : ℚ
  areaKm2 : ℚ
  density : ℚ
  tier : String
  deriving DecidableEq

/-- The row-building loop of `buildSparseHexesFromPois`, with the `processed`
counter and the internal `capped` flag (which the source only `console.warn`s). -/
def buildRows (api : H3Api) (res : H3Res) : List (String × ℚ) → ℕ → List SparseRow × Bool
  | [], _ => ([], false)
  | cb :: rest, processed =>
    if MAX_SPARSE_HEX_CELLS ≤ processed then ([], true)
    else
      let tail := buildRows api res rest (processed + 1)
      let estimate := max 0 (min 10000 cb.2)
      if estimate ≤ 0 then tail
      else
        let boundary := api.cellToBoundary cb.1
        if boundary.length < 4 then tail
        else
          let areaKm2 := getCellAreaKm2 api cb.1 res
          let densityRaw := if 0 < estimate ∧ 0 < areaKm2 then estimate / areaKm2 else 0
          let density := if 0 < densityRaw then densityRaw else 0
          (⟨cb.1, boundary, estimate, areaKm2, density, tierForEstimate estimate⟩ :: tail.1,
            tail.2)

/-- Insertion step of the ascending numeric sort. -/
def insertSorted (x : ℚ) : List ℚ → List ℚ
  | [] => [x]
  | y :: ys => if x ≤ y then x :: y :: ys else y :: insertSorted x ys

/-- The `[...values].sort((a, b) => a - b)` ascending sort. -/
def sortAsc (l : List ℚ) : List ℚ := l.foldr insertSorted []

/-- Source `percentile95(values)`: `sorted[Math.floor(0.95 * (n - 1))] ?? 0`. -/
def percentile95 (values : List ℚ) : ℚ :=
  match values with
  | [] => 0
  | _ => (sortAsc values).getD ((19 * (values.length - 1)) / 20) 0

/-- Numeric value of a resolution, as stored in feature properties. -/
def resValue : H3Res → ℚ
  | .r5 => 5
  | .r6 => 6
  | .r8 => 8

/-- A hex feature as passed around between the sparse build and the annotator:
the dynamic JS object is modelled with one optional field per property the
source reads or writes. -/
structure HexFeature where
  fid : Option String
  cellId : Option String
  resolution : Option ℚ
  tier : Option String
  estimated : Option ℚ
  estimate : Option ℚ
  greedLevel : Option ℚ
  areaKm2 : Option ℚ
  density : Option ℚ
  score : Option ℚ
  estimateSmoothed : Option ℚ
  h3 : Option String
  hexId : Option String
  poiCounts : Option PoiCounts
  geometry : Option Geom
  deriving DecidableEq

/-- Assembly of one output feature of `buildSparseHexesFromPois`. -/
def sparseFeature (res : H3Res) (p95 : ℚ) (r : SparseRow) : HexFeature where
  fid := some r.cell
  cellId := some r.cell
  h3 := some r.cell
  hexId := some r.cell
  resolution := some (resValue res)
  tier := some r.tier
  estimated := some r.estimate
  estimate := some r.estimate
  greedLevel := some ((greedLevelFromEstimated r.estimate (resValue res) : ℤ) : ℚ)
  areaKm2 := some r.areaKm2
  density := some r.density
  score := some (if 0 < p95 then clampQ (r.density / p95) 0 1 else 0)
  estimateSmoothed := some r.estimate
  poiCounts := none
  geometry := some (Geom.polygon [r.boundary])

/-- Source `buildSparseHexesFromPois(poisFc, resolution)`, returning `{ fc, p95 }`.
The internal `capped` flag is only reported through `console.warn` and is *not*
part of the returned value; theorems access it as `(buildRows ...).2`. -/
def buildSparseHexesFromPois (api : H3Api) (features : List PoiFeature) (res : H3Res) :
    List HexFeature × ℚ :=
  if features.isEmpty then ([], 1)
  else
    let center := centerEstimates api features res
    if center.isEmpty then ([], 1)
    else
      let rows := (buildRows api res (spreadHalo api center) 0).1
      let p95raw := percentile95 ((rows.map (fun r => r.density)).filter (fun d => 0 < d))
      let p95 := if p95raw ≤ 0 then 1 else p95raw
      (rows.map (sparseFeature res p95), p95)

/-! ## Annotation cache (`annotateHexesWithPois`, C6, C1) -/

/-- Source `HexAnnotationCacheEntry`. -/
structure HexAnnotationCacheEntry where
  poiVersion : String
  poiCounts : PoiCounts
  estimated : ℚ
  greedLevel : ℚ
  deriving DecidableEq

/-- The prefiltered `poiFeatures` list of `annotateHexesWithPois`: position and
normalized kind of every well-formed input POI. -/
def annotPoiList (poisFc : List PoiFeature) : List ((ℚ × ℚ) × PoiKind) :=
  poisFc.filterMap (fun f =>
    match poiLonLat f with
    | none => none
    | some pt =>
      match poiKindOf f with
      | none => none
      | some k => some (pt, k))

/-- Best-effort model of the `JSON.stringify(firstVertex ?? [])` fallback cell id
(differs from JS number formatting; no claim exercises this path, since every
feature the source annotates carries a `cellId`). -/
def fallbackCellId (g : Option Geom) : String :=
  match g with
  | some (Geom.polygon rings) =>
    match rings.headD [] with
    | [] => "[]"
    | v :: _ => "[" ++ toString v.1 ++ "," ++ toString v.2 ++ "]"
  | some (Geom.multiPolygon polys) =>
    match (polys.headD []).headD [] with
    | [] => "[]"
    | v :: _ => "[" ++ toString v.1 ++ "," ++ toString v.2 ++ "]"
  | none => "[]"

/-- `String(f?.properties?.cellId ?? f?.id ?? "") || JSON.stringify(...)`. -/
def cellIdOf (f : HexFeature) : String :=
  let base := (f.cellId.orElse (fun _ => f.fid)).getD ""
  if base = "" then fallbackCellId f.geometry else base

/-- The per-feature body of `annotateHexesWithPois`: cache hit reuses the stored
counts/estimate/level (the `isFinite` re-check is vacuous over `ℚ`); cache miss
runs point-in-polygon containment over all POIs, computes the weighted estimate
and level, and stores the entry under `` `${cellId}:${poiVersion}` ``. -/
def annotateStep (poiFeatures : List ((ℚ × ℚ) × PoiKind)) (poiVersion : String)
    (acc : List HexFeature × List (String × HexAnnotationCacheEntry)) (f : HexFeature) :
    List HexFeature × List (String × HexAnnotationCacheEntry) :=
  let cacheKey := cellIdOf f ++ ":" ++ poiVersion
  let resolution := f.resolution.getD 6
  match mapGet acc.2 cacheKey with
  | some cached =>
    (acc.1 ++ [{ f with
      poiCounts := some cached.poiCounts,
      estimated := some cached.estimated,
      estimate := some cached.estimated,
      greedLevel := some cached.greedLevel }], acc.2)
  | none =>
    let counts := match f.geometry with
      | some geom => poiFeatures.foldl (fun c pk =>
          if pointInGeoJsonPolygon pk.1 geom then incrementCount c pk.2 else c)
          emptyPoiCounts
      | none => emptyPoiCounts
    let estimated := getEstimatedFromPoiCounts counts
    let level : ℚ := ((greedLevelFromEstimated estimated resolution : ℤ) : ℚ)
    (acc.1 ++ [{ f with
      poiCounts := some counts,
      estimated := some estimated,
      estimate := some estimated,
      greedLevel := some level }],
      mapSet acc.2 cacheKey ⟨poiVersion, counts, estimated, level⟩)

/-- Source `annotateHexesWithPois(hexFc, poisFc, poiVersion, annotationCache)`.
The mutated cache is returned alongside the annotated features. -/
def annotateHexesWithPois (hexFc : List HexFeature) (poisFc : List PoiFeature)
    (poiVersion : String) (cache : List (String × HexAnnotationCacheEntry)) :
    List HexFeature × List (String × HexAnnotationCacheEntry) :=
  if hexFc.isEmpty then ([], cache)
  else hexFc.foldl (annotateStep (annotPoiList poisFc) poiVersion) ([], cache)

/-! ## C8: halo spreading characterization -/

/-- Value held for a cell in an estimates map, 0 when absent (`get(...) ?? 0`). -/
def lookupD (m : List (String × ℚ)) (k : String) : ℚ := (mapGet m k).getD 0

theorem mapGet_some_mem {α β : Type} [DecidableEq α] (m : List (α × β)) (k : α) (b : β)
    (h : mapGet m k = some b) : (k, b) ∈ m := by
  induction m with
  | nil => simp [mapGet] at h
  | cons p rest ih =>
    by_cases hp : p.1 = k
    · rw [mapGet, if_pos hp] at h
      have : p = (k, b) := by
        cases p
        cases h
        simp_all
      rw [← this]
      exact List.mem_cons_self _ _
    · rw [mapGet, if_neg hp] at h
      exact List.mem_cons_of_mem _ (ih h)

theorem centerEstimates_pos (api : H3Api) (features : List PoiFeature) (res : H3Res) :
    ∀ cb ∈ centerEstimates api features res, 1 ≤ cb.2 := by
  have aux : ∀ (fs : List PoiFeature) (m : List (String × ℚ)),
      (∀ cb ∈ m, 1 ≤ cb.2) →
      ∀ cb ∈ fs.foldl (fun m f =>
        if f.kind ≠ some "synagogue" then m
        else match poiLonLat f with
          | none => m
          | some ll => mapSet m (api.latLngToCell ll.2 ll.1 res)
              ((mapGet m (api.latLngToCell ll.2 ll.1 res)).getD 0 + 1)) m, 1 ≤ cb.2 := by
    intro fs
    induction fs with
    | nil => intro m hm; simpa using hm
    | cons f rest ih =>
      intro m hm
      rw [List.foldl_cons]
      apply ih
      by_cases hk : f.kind ≠ some "synagogue"
      · simpa [hk] using hm
      · rw [if_neg (by simpa using hk)]
        cases hll : poiLonLat f with
        | none => exact hm
        | some ll =>
          intro cb hcb
          rcases mapSet_mem_cases _ _ _ cb hcb with rfl | h'
          · show 1 ≤ (mapGet m (api.latLngToCell ll.2 ll.1 res)).getD 0 + 1
            cases hget : mapGet m (api.latLngToCell ll.2 ll.1 res) with
            | none => simp
            | some v =>
              have := hm _ (mapGet_some_mem _ _ _ hget)
              simp only [Option.getD_some]
              linarith [this]
          · exact hm cb h'
  exact aux features [] (by simp)

/-- Effect of spreading one halo value `h` from source `s` over a neighbor list. -/
theorem spreadOne (s : String) (h : ℚ) :
    ∀ (ns : List String) (est : List (String × ℚ)) (cell : String),
      lookupD (ns.foldl (fun e n => if n = s then e
          else mapSet e n (max ((mapGet e n).getD 0) h)) est) cell
        = if cell ∈ ns ∧ cell ≠ s then max (lookupD est cell) h else lookupD est cell := by
  intro ns
  induction ns with
  | nil => intro est cell; simp
  | cons n ns' ih =>
    intro est cell
    rw [List.foldl_cons, ih]
    by_cases hns : n = s
    · rw [if_pos hns]
      by_cases hcell : cell ∈ ns' ∧ cell ≠ s
      · rw [if_pos hcell, if_pos ⟨List.mem_cons_of_mem _ hcell.1, hcell.2⟩]
      · rw [if_neg hcell]
        have hng : ¬(cell ∈ n :: ns' ∧ cell ≠ s) := by
          rintro ⟨hmem, hne⟩
          rcases List.mem_cons.1 hmem with rfl | hmem'
          · exact hne hns
          · exact hcell ⟨hmem', hne⟩
        rw [if_neg hng]
    · by_cases hcn : cell = n
      · subst hcn
        rw [if_neg hns]
        have hcs : cell ≠ s := hns
        have hset : lookupD (mapSet est cell (max ((mapGet est cell).getD 0) h)) cell
            = max (lookupD est cell) h := by
          unfold lookupD
          rw [mapGet_set_self]
          rfl
        by_cases h2 : cell ∈ ns'
        · rw [if_pos ⟨h2, hcs⟩, hset, if_pos ⟨List.mem_cons_self _ _, hcs⟩,
            max_assoc, max_self]
        · rw [if_neg (by rintro ⟨hm, -⟩; exact h2 hm), hset,
            if_pos ⟨List.mem_cons_self _ _, hcs⟩]
      · rw [if_neg hns]
        have hset : lookupD (mapSet est n (max ((mapGet est n).getD 0) h)) cell
            = lookupD est cell := by
          unfold lookupD
          rw [mapGet_set_ne _ _ _ _ hcn]
        rw [hset]
        by_cases hcell : cell ∈ ns' ∧ cell ≠ s
        · rw [if_pos hcell, if_pos ⟨List.mem_cons_of_mem _ hcell.1, hcell.2⟩]
        · rw [if_neg hcell]
          have hng : ¬(cell ∈ n :: ns' ∧ cell ≠ s) := by
            rintro ⟨hmem, hne⟩
            rcases List.mem_cons.1 hmem with rfl | hmem'
            · exact hcn rfl
            · exact hcell ⟨hmem', hne⟩
          rw [if_neg hng]

theorem spreadOne_nonneg (s : String) (h : ℚ) (hh : 0 ≤ h) :
    ∀ (ns : List String) (est : List (String × ℚ)),
      (∀ cb ∈ est, 0 ≤ cb.2) →
      ∀ cb ∈ ns.foldl (fun e n => if n = s then e
          else mapSet e n (max ((mapGet e n).getD 0) h)) est, 0 ≤ cb.2 := by
  intro ns
  induction ns with
  | nil => intro est hest; simpa using hest
  | cons n ns' ih =>
    intro est hest
    rw [List.foldl_cons]
    apply ih
    by_cases hns : n = s
    · simpa [hns] using hest
    · rw [if_neg hns]
      intro cb hcb
      rcases mapSet_mem_cases _ _ _ cb hcb with rfl | h'
      · exact le_trans hh (le_max_right _ _)
      · exact hest cb h'

theorem lookupD_nonneg (est : List (String × ℚ)) (cell : String)
    (hest : ∀ cb ∈ est, 0 ≤ cb.2) : 0 ≤ lookupD est cell := by
  unfold lookupD
  cases hget : mapGet est cell with
  | none => simp
  | some v => simpa using hest _ (mapGet_some_mem _ _ _ hget)

/-- Largest halo (`0.25 ×` count) any topologically adjacent center cell sends to
`cell`, accumulated the way the spreading loop encounters sources. -/
def adjacentHalo (api : H3Api) (center : List (String × ℚ)) (cell : String) : ℚ :=
  center.foldl (fun acc cb =>
    if cell ∈ api.gridDisk cb.1 ∧ cell ≠ cb.1 then max acc (cb.2 * (1/4)) else acc) 0

/-- Largest raw count among the center cells topologically adjacent to `cell`. -/
def adjacentCountMax (api : H3Api) (center : List (String × ℚ)) (cell : String) : ℚ :=
  center.foldl (fun acc cb =>
    if cell ∈ api.gridDisk cb.1 ∧ cell ≠ cb.1 then max acc cb.2 else acc) 0

theorem haloFold_acc (api : H3Api) (cell : String) :
    ∀ (src : List (String × ℚ)) (a : ℚ), 0 ≤ a →
      src.foldl (fun acc cb =>
        if cell ∈ api.gridDisk cb.1 ∧ cell ≠ cb.1 then max acc (cb.2 * (1/4)) else acc) a
      = max a (adjacentHalo api src cell) := by
  intro src
  induction src with
  | nil =>
    intro a ha
    simp only [List.foldl_nil]
    rw [show adjacentHalo api [] cell = 0 from rfl, max_eq_left ha]
  | cons cb rest ih =>
    intro a ha
    by_cases hadj : cell ∈ api.gridDisk cb.1 ∧ cell ≠ cb.1
    · rw [List.foldl_cons, if_pos hadj, ih _ (le_trans ha (le_max_left _ _))]
      have hrhs : adjacentHalo api (cb :: rest) cell
          = max (max 0 (cb.2 * (1/4))) (adjacentHalo api rest cell) := by
        unfold adjacentHalo
        rw [List.foldl_cons, if_pos hadj]
        exact ih _ (le_max_left _ _)
      rw [hrhs, ← max_assoc, ← max_assoc]
      congr 1
      rw [max_eq_left ha]
    · rw [List.foldl_cons, if_neg hadj, ih a ha]
      have hrhs : adjacentHalo api (cb :: rest) cell = adjacentHalo api rest cell := by
        unfold adjacentHalo
        rw [List.foldl_cons, if_neg hadj]
      rw [hrhs]

theorem spread_fold (api : H3Api) (cell : String) :
    ∀ (src est : List (String × ℚ)), (∀ cb ∈ src, 0 < cb.2) →
      (∀ cb ∈ est, 0 ≤ cb.2) →
      lookupD (src.foldl (fun est cb =>
        if cb.2 * (1/4) ≤ 0 then est
        else (api.gridDisk cb.1).foldl (fun est2 n =>
          if n = cb.1 then est2
          else mapSet est2 n (max ((mapGet est2 n).getD 0) (cb.2 * (1/4)))) est) est) cell
      = max (lookupD est cell) (adjacentHalo api src cell) := by
  intro src
  induction src with
  | nil =>
    intro est _ hest
    simp only [List.foldl_nil]
    rw [show adjacentHalo api [] cell = 0 from rfl,
      max_eq_left (lookupD_nonneg est cell hest)]
  | cons cb rest ih =>
    intro est hpos hest
    have hposr : ∀ x ∈ rest, 0 < x.2 := fun x hx => hpos x (List.mem_cons_of_mem _ hx)
    have hcb : 0 < cb.2 := hpos cb (List.mem_cons_self _ _)
    have hq : (0:ℚ) < cb.2 * (1/4) := by positivity
    have hskip : ¬(cb.2 * (1/4) ≤ 0) := not_le.2 hq
    rw [List.foldl_cons, if_neg hskip,
      ih _ hposr (spreadOne_nonneg cb.1 _ hq.le (api.gridDisk cb.1) est hest),
      spreadOne]
    have hrhs : adjacentHalo api (cb :: rest) cell
        = if cell ∈ api.gridDisk cb.1 ∧ cell ≠ cb.1
          then max (max 0 (cb.2 * (1/4))) (adjacentHalo api rest cell)
          else adjacentHalo api rest cell := by
      unfold adjacentHalo
      rw [List.foldl_cons]
      by_cases hadj : cell ∈ api.gridDisk cb.1 ∧ cell ≠ cb.1
      · rw [if_pos hadj, if_pos hadj]
        exact haloFold_acc api cell rest _ (le_max_left _ _)
      · rw [if_neg hadj, if_neg hadj]
    rw [hrhs]
    by_cases hadj : cell ∈ api.gridDisk cb.1 ∧ cell ≠ cb.1
    · rw [if_pos hadj, if_pos ⟨hadj.1, fun hc => hadj.2 hc⟩,
        max_eq_right hq.le, ← max_assoc]
    · have hadj' : ¬(cell ∈ api.gridDisk cb.1 ∧ ¬cell = cb.1) := hadj
      rw [if_neg hadj, if_neg hadj']

theorem haloFold_quarter (api : H3Api) (cell : String) :
    ∀ (src : List (String × ℚ)) (a : ℚ),
      src.foldl (fun acc cb =>
        if cell ∈ api.gridDisk cb.1 ∧ cell ≠ cb.1 then max acc (cb.2 * (1/4)) else acc)
        ((1/4) * a)
      = (1/4) * (src.foldl (fun acc cb =>
          if cell ∈ api.gridDisk cb.1 ∧ cell ≠ cb.1 then max acc cb.2 else acc) a) := by
  intro src
  induction src with
  | nil => intro a; simp
  | cons cb rest ih =>
    intro a
    rw [List.foldl_cons, List.foldl_cons]
    by_cases hadj : cell ∈ api.gridDisk cb.1 ∧ cell ≠ cb.1
    · rw [if_pos hadj, if_pos hadj]
      have hmax : max ((1/4) * a) (cb.2 * (1/4)) = (1/4) * max a cb.2 := by
        rw [mul_max_of_nonneg _ _ (by norm_num : (0:ℚ) ≤ 1/4)]
        congr 1
        ring
      rw [hmax, ih (max a cb.2)]
    · rw [if_neg hadj, if_neg hadj]
      exact ih a

/-- C8: after halo spreading, a cell's estimate is exactly the maximum of its own
raw count (0 when it has none) and 0.25 times the largest raw count among the
center cells topologically adjacent to it (adjacency = membership in the source
cell's `gridDisk`); in particular no cell's final estimate exceeds
`max(own count, 0.25 × largest adjacent count)`. -/
theorem halo_spread_max (api : H3Api) (features : List PoiFeature) (res : H3Res)
    (cell : String) :
    lookupD (spreadHalo api (centerEstimates api features res)) cell
      = max (lookupD (centerEstimates api features res) cell)
          ((1/4) * adjacentCountMax api (centerEstimates api features res) cell) ∧
    lookupD (spreadHalo api (centerEstimates api features res)) cell
      ≤ max (lookupD (centerEstimates api features res) cell)
          ((1/4) * adjacentCountMax api (centerEstimates api features res) cell) := by
  have hpos : ∀ cb ∈ centerEstimates api features res, 0 < cb.2 := by
    intro cb hcb
    have := centerEstimates_pos api features res cb hcb
    linarith
  have hquarter : adjacentHalo api (centerEstimates api features res) cell
      = (1/4) * adjacentCountMax api (centerEstimates api features res) cell := by
    have h := haloFold_quarter api cell (centerEstimates api features res) 0
    unfold adjacentHalo adjacentCountMax
    simpa using h
  have hmain : lookupD (spreadHalo api (centerEstimates api features res)) cell
      = max (lookupD (centerEstimates api features res) cell)
          ((1/4) * adjacentCountMax api (centerEstimates api features res) cell) := by
    rw [← hquarter]
    exact spread_fold api cell (centerEstimates api features res) _ hpos
      (fun cb hcb => (hpos cb hcb).le)
  exact ⟨hmain, le_of_eq hmain⟩

/-! ## C5: cell cap and the missing returned flag -/

theorem buildRows_capped (api : H3Api) (res : H3Res) :
    ∀ (est : List (String × ℚ)) (p : ℕ),
      (buildRows api res est p).2 = decide (MAX_SPARSE_HEX_CELLS - p < est.length) := by
  intro est
  induction est with
  | nil => intro p; simp [buildRows]
  | cons cb rest ih =>
    intro p
    by_cases hp : MAX_SPARSE_HEX_CELLS ≤ p
    · simp only [buildRows]
      rw [if_pos hp]
      have h0 : MAX_SPARSE_HEX_CELLS - p = 0 := Nat.sub_eq_zero_of_le hp
      simp [h0]
    · simp only [buildRows]
      rw [if_neg hp]
      have harith : (decide (MAX_SPARSE_HEX_CELLS - (p + 1) < rest.length))
          = decide (MAX_SPARSE_HEX_CELLS - p < (cb :: rest).length) := by
        apply decide_eq_decide.2
        simp only [List.length_cons]
        omega
      split_ifs <;> simp only [ih (p + 1), harith]

theorem buildRows_take (api : H3Api) (res : H3Res) :
    ∀ (est : List (String × ℚ)) (p : ℕ),
      (buildRows api res est p).1
        = (buildRows api res (est.take (MAX_SPARSE_HEX_CELLS - p)) p).1 := by
  intro est
  induction est with
  | nil => intro p; simp [buildRows]
  | cons cb rest ih =>
    intro p
    by_cases hp : MAX_SPARSE_HEX_CELLS ≤ p
    · have h0 : MAX_SPARSE_HEX_CELLS - p = 0 := Nat.sub_eq_zero_of_le hp
      rw [h0, List.take_zero]
      simp only [buildRows]
      rw [if_pos hp]
    · obtain ⟨k, hk⟩ : ∃ k, MAX_SPARSE_HEX_CELLS - p = k + 1 :=
        ⟨MAX_SPARSE_HEX_CELLS - p - 1, by omega⟩
      rw [hk, List.take_cons (Nat.succ_pos k)]
      have hk' : MAX_SPARSE_HEX_CELLS - (p + 1) = k := by omega
      simp only [buildRows]
      rw [if_neg hp, if_neg hp]
      split_ifs <;> simp only [ih (p + 1), hk', Nat.add_sub_cancel, Nat.succ_sub_one]

theorem buildRows_length (api : H3Api) (res : H3Res) :
    ∀ (est : List (String × ℚ)) (p : ℕ),
      (buildRows api res est p).1.length ≤ MAX_SPARSE_HEX_CELLS - p := by
  intro est
  induction est with
  | nil => intro p; simp [buildRows]
  | cons cb rest ih =>
    intro p
    by_cases hp : MAX_SPARSE_HEX_CELLS ≤ p
    · simp only [buildRows]
      rw [if_pos hp]
      simp
    · simp only [buildRows]
      rw [if_neg hp]
      have htail := ih (p + 1)
      split_ifs <;> first | omega | (simp only [List.length_cons]; omega)

/-- C5 (amended): the sparse build always emits at most `MAX_SPARSE_HEX_CELLS`
features and the internal capped flag is set exactly when the candidate cells
exceed the cap; but that flag is only `console.warn`ed, it is not part of the
returned `{ fc, p95 }` value. -/
theorem cap_safety_amended (api : H3Api) (pois : List PoiFeature) (res : H3Res) :
    (buildSparseHexesFromPois api pois res).1.length ≤ MAX_SPARSE_HEX_CELLS ∧
    ((buildRows api res (spreadHalo api (centerEstimates api pois res)) 0).2 = true
      ↔ MAX_SPARSE_HEX_CELLS < (spreadHalo api (centerEstimates api pois res)).length) := by
  constructor
  · have hrows := buildRows_length api res (spreadHalo api (centerEstimates api pois res)) 0
    rw [Nat.sub_zero] at hrows
    simp only [buildSparseHexesFromPois]
    split_ifs <;> simp [List.length_map] <;> omega
  · rw [buildRows_capped]
    rw [decide_eq_true_eq]
    omega

theorem cap_safety_amended_witness :
    (buildSparseHexesFromPois
        ⟨fun _ _ _ => "c", fun c => [c], fun _ => [], fun _ => none⟩ [] H3Res.r5).1.length
      ≤ MAX_SPARSE_HEX_CELLS :=
  (cap_safety_amended ⟨fun _ _ _ => "c", fun c => [c], fun _ => [], fun _ => none⟩
    [] H3Res.r5).1

/-- Cell names for the cap counterexample: distinct strings of distinct lengths. -/
def c5Cell (i : ℕ) : String := String.mk (List.replicate i 'a')

/-- Toy h3 instance for the cap counterexample: each point falls in its own cell
(real h3 would only add further halo candidates, making the cap even easier to
hit), valid 5-vertex boundaries, unit areas. -/
def c5Api : H3Api where
  latLngToCell := fun _ lon _ => c5Cell lon.num.toNat
  gridDisk := fun c => [c]
  cellToBoundary := fun _ => [(0, 0), (1, 0), (1, 1), (0, 1), (0, 0)]
  cellArea := fun _ => some 1

def c5Poi (i : ℕ) : PoiFeature := ⟨some "synagogue", none, [(i : ℚ), 0]⟩

def c5Pois (n : ℕ) : List PoiFeature := (List.range n).map c5Poi

theorem mapSet_append_of_none {α β : Type} [DecidableEq α]
    (m : List (α × β)) (k : α) (v : β) (h : mapGet m k = none) :
    mapSet m k v = m ++ [(k, v)] := by
  induction m with
  | nil => rfl
  | cons p rest ih =>
    by_cases hp : p.1 = k
    · rw [mapGet, if_pos hp] at h
      simp at h
    · rw [mapGet, if_neg hp] at h
      rw [mapSet, if_neg hp, ih h]
      simp

theorem mapGet_append_left_none {α β : Type} [DecidableEq α]
    (m1 m2 : List (α × β)) (k : α) (h : mapGet m1 k = none) :
    mapGet (m1 ++ m2) k = mapGet m2 k := by
  induction m1 with
  | nil => simp
  | cons p rest ih =>
    by_cases hp : p.1 = k
    · rw [mapGet, if_pos hp] at h
      simp at h
    · rw [mapGet, if_neg hp] at h
      rw [List.cons_append, mapGet, if_neg hp, ih h]

theorem c5Cell_inj (i j : ℕ) (h : c5Cell i = c5Cell j) : i = j := by
  have hdata : (c5Cell i).data = (c5Cell j).data := by rw [h]
  unfold c5Cell at hdata
  simpa using congrArg List.length hdata

theorem c5_center_general :
    ∀ (l : List ℕ) (m : List (String × ℚ)),
      l.Nodup → (∀ i ∈ l, mapGet m (c5Cell i) = none) →
      (l.map c5Poi).foldl (fun m f =>
        if f.kind ≠ some "synagogue" then m
        else match poiLonLat f with
          | none => m
          | some ll => mapSet m (c5Api.latLngToCell ll.2 ll.1 H3Res.r5)
              ((mapGet m (c5Api.latLngToCell ll.2 ll.1 H3Res.r5)).getD 0 + 1)) m
      = m ++ l.map (fun i => (c5Cell i, 1)) := by
  intro l
  induction l with
  | nil => intro m _ _; simp
  | cons i rest ih =>
    intro m hnd hnone
    have hcell : c5Api.latLngToCell ((0 : ℚ)) ((i : ℚ)) H3Res.r5 = c5Cell i := by
      show c5Cell ((i : ℚ)).num.toNat = c5Cell i
      norm_num
    have hstep : (if (c5Poi i).kind ≠ some "synagogue" then m
        else match poiLonLat (c5Poi i) with
          | none => m
          | some ll => mapSet m (c5Api.latLngToCell ll.2 ll.1 H3Res.r5)
              ((mapGet m (c5Api.latLngToCell ll.2 ll.1 H3Res.r5)).getD 0 + 1))
        = m ++ [(c5Cell i, 1)] := by
      have hk : ¬((c5Poi i).kind ≠ some "synagogue") := by simp [c5Poi]
      rw [if_neg hk]
      have hll : poiLonLat (c5Poi i) = some ((i : ℚ), 0) := rfl
      rw [hll]
      simp only [hcell]
      rw [hnone i (List.mem_cons_self _ _)]
      rw [mapSet_append_of_none m _ _ (hnone i (List.mem_cons_self _ _))]
      norm_num
    rw [List.map_cons, List.foldl_cons, hstep]
    rw [ih (m ++ [(c5Cell i, 1)]) (List.Nodup.of_cons hnd) ?_]
    · rw [List.map_cons, List.append_assoc]
      rfl
    · intro j hj
      rw [mapGet_append_left_none _ _ _ (hnone j (List.mem_cons_of_mem _ hj))]
      have hij : ¬(c5Cell i = c5Cell j) := by
        intro hc
        have := c5Cell_inj i j hc
        subst this
        exact (List.nodup_cons.1 hnd).1 hj
      rw [mapGet, if_neg hij]
      rfl

theorem c5_center (n : ℕ) :
    centerEstimates c5Api (c5Pois n) H3Res.r5
      = (List.range n).map (fun i => (c5Cell i, 1)) := by
  have h := c5_center_general (List.range n) [] (List.nodup_range n)
    (fun i _ => rfl)
  unfold centerEstimates c5Pois
  simpa using h

theorem spreadHalo_c5 (center : List (String × ℚ)) :
    spreadHalo c5Api center = center := by
  unfold spreadHalo
  have aux : ∀ (src est : List (String × ℚ)),
      src.foldl (fun est cb =>
        if cb.2 * (1/4) ≤ 0 then est
        else (c5Api.gridDisk cb.1).foldl (fun est2 n =>
          if n = cb.1 then est2
          else mapSet est2 n (max ((mapGet est2 n).getD 0) (cb.2 * (1/4)))) est) est
      = est := by
    intro src
    induction src with
    | nil => intro est; rfl
    | cons cb rest ih =>
      intro est
      rw [List.foldl_cons]
      have hdisk : c5Api.gridDisk cb.1 = [cb.1] := rfl
      have hone : (c5Api.gridDisk cb.1).foldl (fun est2 n =>
          if n = cb.1 then est2
          else mapSet est2 n (max ((mapGet est2 n).getD 0) (cb.2 * (1/4)))) est = est := by
        rw [hdisk]
        simp
      rw [hone]
      split_ifs <;> exact ih est
  exact aux center center

/-- The main branch of `buildSparseHexesFromPois`, factored for rewriting. -/
def sparseP95 (api : H3Api) (pois : List PoiFeature) (res : H3Res) : ℚ :=
  let rows := (buildRows api res (spreadHalo api (centerEstimates api pois res)) 0).1
  let p95raw := percentile95 ((rows.map (fun r => r.density)).filter (fun d => 0 < d))
  if p95raw ≤ 0 then 1 else p95raw

theorem buildSparse_main (api : H3Api) (pois : List PoiFeature) (res : H3Res)
    (h1 : pois.isEmpty = false)
    (h2 : (centerEstimates api pois res).isEmpty = false) :
    buildSparseHexesFromPois api pois res
      = ((buildRows api res (spreadHalo api (centerEstimates api pois res)) 0).1.map
          (sparseFeature res (sparseP95 api pois res)), sparseP95 api pois res) := by
  simp only [buildSparseHexesFromPois, sparseP95, h1, h2]
  simp

theorem c5Pois_not_empty (n : ℕ) (hn : 0 < n) : (c5Pois n).isEmpty = false := by
  unfold c5Pois
  cases hc : List.range n with
  | nil =>
    have := List.range_eq_nil.1 hc
    omega
  | cons x xs => simp [hc]

/-- C5 counterexample: an input with 120001 candidate cells (cap hit, internal
capped flag true) and one with exactly 120000 (cap not hit) produce *identical*
return values, so no flag or diagnostic distinguishing them is returned to the
caller along with the partial result. -/
theorem cap_flag_cex :
    buildSparseHexesFromPois c5Api (c5Pois 120001) H3Res.r5
      = buildSparseHexesFromPois c5Api (c5Pois 120000) H3Res.r5 ∧
    (buildRows c5Api H3Res.r5
      (spreadHalo c5Api (centerEstimates c5Api (c5Pois 120001) H3Res.r5)) 0).2 = true ∧
    (buildRows c5Api H3Res.r5
      (spreadHalo c5Api (centerEstimates c5Api (c5Pois 120000) H3Res.r5)) 0).2 = false := by
  have hA : spreadHalo c5Api (centerEstimates c5Api (c5Pois 120001) H3Res.r5)
      = (List.range 120001).map (fun i => (c5Cell i, 1)) := by
    rw [c5_center, spreadHalo_c5]
  have hB : spreadHalo c5Api (centerEstimates c5Api (c5Pois 120000) H3Res.r5)
      = (List.range 120000).map (fun i => (c5Cell i, 1)) := by
    rw [c5_center, spreadHalo_c5]
  have htake : ((List.range 120001).map (fun i => (c5Cell i, 1)) :
      List (String × ℚ)).take 120000 = (List.range 120000).map (fun i => (c5Cell i, 1)) := by
    rw [← List.map_take, List.take_range]
    rfl
  have hlenB : ((List.range 120000).map (fun i => (c5Cell i, (1 : ℚ)))).length = 120000 := by
    simp
  have hrows : (buildRows c5Api H3Res.r5
        (spreadHalo c5Api (centerEstimates c5Api (c5Pois 120001) H3Res.r5)) 0).1
      = (buildRows c5Api H3Res.r5
        (spreadHalo c5Api (centerEstimates c5Api (c5Pois 120000) H3Res.r5)) 0).1 := by
    rw [hA, hB, buildRows_take]
    have hMAX : MAX_SPARSE_HEX_CELLS - 0 = 120000 := rfl
    rw [hMAX, htake]
  have hcA : (centerEstimates c5Api (c5Pois 120001) H3Res.r5).isEmpty = false := by
    rw [c5_center]
    simp [List.isEmpty_iff]
  have hcB : (centerEstimates c5Api (c5Pois 120000) H3Res.r5).isEmpty = false := by
    rw [c5_center]
    simp [List.isEmpty_iff]
  have hp95 : sparseP95 c5Api (c5Pois 120001) H3Res.r5
      = sparseP95 c5Api (c5Pois 120000) H3Res.r5 := by
    unfold sparseP95
    rw [hrows]
  refine ⟨?_, ?_, ?_⟩
  · rw [buildSparse_main c5Api _ _ (c5Pois_not_empty 120001 (by norm_num)) hcA,
      buildSparse_main c5Api _ _ (c5Pois_not_empty 120000 (by norm_num)) hcB,
      hrows, hp95]
  · rw [buildRows_capped, hA]
    simp [MAX_SPARSE_HEX_CELLS]
  · rw [buildRows_capped, hB]
    simp [MAX_SPARSE_HEX_CELLS]

/-! ## Generic shape lemmas for the annotator -/

theorem annotateStep_shape (P : List ((ℚ × ℚ) × PoiKind)) (v : String)
    (acc : List HexFeature × List (String × HexAnnotationCacheEntry)) (f : HexFeature) :
    ∃ x c, annotateStep P v acc f = (acc.1 ++ [x], c) := by
  simp only [annotateStep]
  cases mapGet acc.2 (cellIdOf f ++ ":" ++ v) <;> exact ⟨_, _, rfl⟩

theorem annotateFold_ext (P : List ((ℚ × ℚ) × PoiKind)) (v : String) :
    ∀ (l : List HexFeature) (acc : List HexFeature × List (String × HexAnnotationCacheEntry)),
      ∃ s, (l.foldl (annotateStep P v) acc).1 = acc.1 ++ s := by
  intro l
  induction l with
  | nil => intro acc; exact ⟨[], by simp⟩
  | cons f rest ih =>
    intro acc
    rw [List.foldl_cons]
    obtain ⟨x, c, hx⟩ := annotateStep_shape P v acc f
    obtain ⟨s, hs⟩ := ih (annotateStep P v acc f)
    refine ⟨x :: s, ?_⟩
    rw [hs, hx]
    simp

theorem annotateFold_length (P : List ((ℚ × ℚ) × PoiKind)) (v : String) :
    ∀ (l : List HexFeature) (acc : List HexFeature × List (String × HexAnnotationCacheEntry)),
      (l.foldl (annotateStep P v) acc).1.length = acc.1.length + l.length := by
  intro l
  induction l with
  | nil => intro acc; simp
  | cons f rest ih =>
    intro acc
    rw [List.foldl_cons, ih]
    obtain ⟨x, c, hx⟩ := annotateStep_shape P v acc f
    rw [hx]
    simp only [List.length_append, List.length_cons, List.length_nil]
    omega

/-- The annotator returns one output feature per input feature. -/
theorem annotate_length (hexFc : List HexFeature) (pois : List PoiFeature)
    (v : String) (cache : List (String × HexAnnotationCacheEntry)) :
    (annotateHexesWithPois hexFc pois v cache).1.length
      = if hexFc.isEmpty then 0 else hexFc.length := by
  unfold annotateHexesWithPois
  split_ifs with h
  · rfl
  · rw [annotateFold_length]
    simp

/-- The first annotated feature is the first input feature's annotation. -/
theorem annotate_head (f : HexFeature) (rest : List HexFeature) (pois : List PoiFeature)
    (v : String) (cache : List (String × HexAnnotationCacheEntry)) :
    (annotateHexesWithPois (f :: rest) pois v cache).1.head?
      = (annotateStep (annotPoiList pois) v ([], cache) f).1.head? := by
  unfold annotateHexesWithPois
  rw [if_neg (by simp)]
  rw [List.foldl_cons]
  obtain ⟨s, hs⟩ := annotateFold_ext (annotPoiList pois) v rest
    (annotateStep (annotPoiList pois) v ([], cache) f)
  rw [hs]
  obtain ⟨x, c, hx⟩ := annotateStep_shape (annotPoiList pois) v ([], cache) f
  rw [hx]
  simp

/-! ## C1: the 10-points example scenario -/

/-- Unit-square boundary for toy cell number `k` (closed 5-vertex GeoJSON ring,
mirroring `cellToBoundary(cell, true)`); squares of distinct `k` are disjoint. -/
def c1Boundary (k : ℕ) : List (ℚ × ℚ) :=
  [(2 * k, 0), (2 * k + 1, 0), (2 * k + 1, 1), (2 * k, 1), (2 * k, 0)]

/-- Toy h3 instance for the example scenario, mirroring h3's documented behaviour
at the scenario's single occupied cell: every point of the scenario falls in cell
`"h0"`, whose `gridDisk` holds itself plus six distinct neighbors, and every cell
has a valid closed boundary. -/
def c1Api : H3Api where
  latLngToCell := fun _ _ _ => "h0"
  gridDisk := fun c =>
    if c = "h0" then ["h0", "n1", "n2", "n3", "n4", "n5", "n6"] else [c]
  cellToBoundary := fun c =>
    if c = "h0" then c1Boundary 0
    else if c = "n1" then c1Boundary 1
    else if c = "n2" then c1Boundary 2
    else if c = "n3" then c1Boundary 3
    else if c = "n4" then c1Boundary 4
    else if c = "n5" then c1Boundary 5
    else if c = "n6" then c1Boundary 6
    else []
  cellArea := fun _ => some 1

/-- One synagogue POI at the scenario's shared coordinate. -/
def c1Poi : PoiFeature := ⟨some "synagogue", none, [1/2, 1/2]⟩

/-- The scenario's ten identical points. -/
def c1Pois : List PoiFeature :=
  [c1Poi, c1Poi, c1Poi, c1Poi, c1Poi, c1Poi, c1Poi, c1Poi, c1Poi, c1Poi]

theorem c1_center : centerEstimates c1Api c1Pois H3Res.r5 = [("h0", 10)] := by
  norm_num +decide [centerEstimates, c1Pois, c1Poi, c1Api, poiLonLat, mapGet, mapSet]

theorem c1_estimates : spreadHalo c1Api [("h0", (10 : ℚ))]
    = [("h0", 10), ("n1", 5/2), ("n2", 5/2), ("n3", 5/2), ("n4", 5/2),
       ("n5", 5/2), ("n6", 5/2)] := by
  norm_num +decide [spreadHalo, c1Api, mapGet, mapSet]

/-- The seven rows the sparse build assembles in the scenario. -/
def c1Rows : List SparseRow :=
  [⟨"h0", c1Boundary 0, 10, 1, 10, "notable"⟩,
   ⟨"n1", c1Boundary 1, 5/2, 1, 5/2, "low"⟩,
   ⟨"n2", c1Boundary 2, 5/2, 1, 5/2, "low"⟩,
   ⟨"n3", c1Boundary 3, 5/2, 1, 5/2, "low"⟩,
   ⟨"n4", c1Boundary 4, 5/2, 1, 5/2, "low"⟩,
   ⟨"n5", c1Boundary 5, 5/2, 1, 5/2, "low"⟩,
   ⟨"n6", c1Boundary 6, 5/2, 1, 5/2, "low"⟩]

theorem c1_rows : buildRows c1Api H3Res.r5
    [("h0", 10), ("n1", 5/2), ("n2", 5/2), ("n3", 5/2), ("n4", 5/2),
     ("n5", 5/2), ("n6", 5/2)] 0
    = (c1Rows, false) := by
  norm_num +decide [buildRows, MAX_SPARSE_HEX_CELLS, c1Api, getCellAreaKm2, tierForEstimate,
    c1Boundary, c1Rows]

theorem c1_p95 : sparseP95 c1Api c1Pois H3Res.r5 = 5/2 := by
  unfold sparseP95
  rw [c1_center, c1_estimates, c1_rows]
  norm_num [c1Rows, percentile95, sortAsc, insertSorted]

theorem c1_build : buildSparseHexesFromPois c1Api c1Pois H3Res.r5
    = (c1Rows.map (sparseFeature H3Res.r5 (5/2)), 5/2) := by
  rw [buildSparse_main c1Api c1Pois H3Res.r5 (by rfl) (by rw [c1_center]; rfl)]
  rw [c1_center, c1_estimates, c1_rows, c1_p95]

theorem c1_kind : poiKindOf c1Poi = some PoiKind.synagogue := by decide

theorem c1_annot_list : annotPoiList c1Pois
    = List.replicate 10 (((1 : ℚ)/2, (1 : ℚ)/2), PoiKind.synagogue) := by
  have hll : poiLonLat c1Poi = some (1/2, 1/2) := rfl
  simp +decide [annotPoiList, c1Pois, hll, c1_kind, List.replicate]

theorem c1_in_h0 :
    pointInGeoJsonPolygon ((1 : ℚ)/2, (1 : ℚ)/2) (Geom.polygon [c1Boundary 0]) = true := by
  norm_num [pointInGeoJsonPolygon, pointInRing, ringEdges, chainEdges, crossesEdge,
    c1Boundary, List.getLastD]

theorem c1_head :
    ((annotateHexesWithPois (buildSparseHexesFromPois c1Api c1Pois H3Res.r5).1
        c1Pois "v" []).1).head?
      = some { sparseFeature H3Res.r5 (5/2) ⟨"h0", c1Boundary 0, 10, 1, 10, "notable"⟩ with
          poiCounts := some ⟨10, 0, 0, 0, 0, 0⟩,
          estimated := some 2500,
          estimate := some 2500,
          greedLevel := some 100 } := by
  have hfc : (buildSparseHexesFromPois c1Api c1Pois H3Res.r5).1
      = sparseFeature H3Res.r5 (5/2) ⟨"h0", c1Boundary 0, 10, 1, 10, "notable"⟩
        :: (c1Rows.drop 1).map (sparseFeature H3Res.r5 (5/2)) := by
    rw [c1_build]
    rfl
  rw [hfc, annotate_head, c1_annot_list]
  norm_num +decide [annotateStep, mapGet, cellIdOf, sparseFeature, resValue, List.replicate,
    c1_in_h0, incrementCount, emptyPoiCounts,
    getEstimatedFromPoiCounts, ALL_POI_KINDS, countFor, POI_ESTIMATE_WEIGHT,
    jsRound, greedLevelFromEstimated, clampZ, greedMaxByRes]

/-- C1 counterexample: in the 10-identical-points scenario the build + annotate
pipeline emits seven cells (the home cell plus its six halo neighbors), not
exactly one, and the home cell's tier is "notable" (its raw count 10 is below
the 16 threshold), not "significant". -/
theorem example_scenario_cex :
    ((annotateHexesWithPois (buildSparseHexesFromPois c1Api c1Pois H3Res.r5).1
        c1Pois "v" []).1).length = 7 ∧
    ((annotateHexesWithPois (buildSparseHexesFromPois c1Api c1Pois H3Res.r5).1
        c1Pois "v" []).1).head?.map (fun f => f.tier) = some (some "notable") := by
  constructor
  · have hfc : (buildSparseHexesFromPois c1Api c1Pois H3Res.r5).1
        = c1Rows.map (sparseFeature H3Res.r5 (5/2)) := by rw [c1_build]
    rw [annotate_length, hfc]
    simp [c1Rows]
  · rw [c1_head]
    rfl

/-- C1 (amended): ten synagogue points at one coordinate with weight 250, built at
coarse resolution and annotated, produce seven cells (home plus six halo
neighbors); the home cell carries raw synagogue count 10, weighted estimate 2500
and level 100, but its tier — computed at build time from the raw count 10 — is
"notable", not "significant". -/
theorem example_scenario_amended :
    ((annotateHexesWithPois (buildSparseHexesFromPois c1Api c1Pois H3Res.r5).1
        c1Pois "v" []).1).length = 7 ∧
    ((annotateHexesWithPois (buildSparseHexesFromPois c1Api c1Pois H3Res.r5).1
        c1Pois "v" []).1).head?.map
        (fun f => (f.poiCounts, f.estimated, f.greedLevel, f.tier))
      = some (some ⟨10, 0, 0, 0, 0, 0⟩, some 2500, some 100, some "notable") := by
  constructor
  · have hfc : (buildSparseHexesFromPois c1Api c1Pois H3Res.r5).1
        = c1Rows.map (sparseFeature H3Res.r5 (5/2)) := by rw [c1_build]
    rw [annotate_length, hfc]
    simp [c1Rows]
  · rw [c1_head]
    rfl

/-! ## C6: annotation cache — idempotence, fingerprint isolation, key collisions -/

/-- The output feature `annotateHexesWithPois` produces for `f` from a cache entry
`e` (the hit path; the miss path emits the same shape with the fresh entry). -/
def cachedFeature (f : HexFeature) (e : HexAnnotationCacheEntry) : HexFeature :=
  { f with
    poiCounts := some e.poiCounts,
    estimated := some e.estimated,
    estimate := some e.estimated,
    greedLevel := some e.greedLevel }

/-- The entry computed and stored on a cache miss; it depends only on the feature,
the POI list and the fingerprint, never on the cache. -/
def missEntry (P : List ((ℚ × ℚ) × PoiKind)) (v : String) (f : HexFeature) :
    HexAnnotationCacheEntry :=
  let counts := match f.geometry with
    | some geom => P.foldl (fun c pk =>
        if pointInGeoJsonPolygon pk.1 geom then incrementCount c pk.2 else c)
        emptyPoiCounts
    | none => emptyPoiCounts
  ⟨v, counts, getEstimatedFromPoiCounts counts,
    ((greedLevelFromEstimated (getEstimatedFromPoiCounts counts) (f.resolution.getD 6) : ℤ) : ℚ)⟩

/-- The output feature for `f` read off a cache (used where the key is present). -/
def annotateFromCache (c : List (String × HexAnnotationCacheEntry)) (v : String)
    (f : HexFeature) : HexFeature :=
  ((mapGet c (cellIdOf f ++ ":" ++ v)).map (cachedFeature f)).getD f

theorem annotateStep_hit (P : List ((ℚ × ℚ) × PoiKind)) (v : String)
    (acc : List HexFeature × List (String × HexAnnotationCacheEntry)) (f : HexFeature)
    (e : HexAnnotationCacheEntry) (h : mapGet acc.2 (cellIdOf f ++ ":" ++ v) = some e) :
    annotateStep P v acc f = (acc.1 ++ [cachedFeature f e], acc.2) := by
  simp only [annotateStep, h, cachedFeature]

theorem annotateStep_miss (P : List ((ℚ × ℚ) × PoiKind)) (v : String)
    (acc : List HexFeature × List (String × HexAnnotationCacheEntry)) (f : HexFeature)
    (h : mapGet acc.2 (cellIdOf f ++ ":" ++ v) = none) :
    annotateStep P v acc f
      = (acc.1 ++ [cachedFeature f (missEntry P v f)],
         mapSet acc.2 (cellIdOf f ++ ":" ++ v) (missEntry P v f)) := by
  simp only [annotateStep, h, cachedFeature, missEntry]

theorem annotateStep_entry (P : List ((ℚ × ℚ) × PoiKind)) (v : String)
    (acc : List HexFeature × List (String × HexAnnotationCacheEntry)) (f : HexFeature) :
    ∃ e, annotateStep P v acc f
        = (acc.1 ++ [cachedFeature f e], (annotateStep P v acc f).2)
      ∧ mapGet (annotateStep P v acc f).2 (cellIdOf f ++ ":" ++ v) = some e := by
  cases h : mapGet acc.2 (cellIdOf f ++ ":" ++ v) with
  | some e =>
    refine ⟨e, ?_, ?_⟩
    · rw [annotateStep_hit P v acc f e h]
    · rw [annotateStep_hit P v acc f e h]; exact h
  | none =>
    refine ⟨missEntry P v f, ?_, ?_⟩
    · rw [annotateStep_miss P v acc f h]
    · rw [annotateStep_miss P v acc f h]; exact mapGet_set_self _ _ _

theorem annotateStep_keep (P : List ((ℚ × ℚ) × PoiKind)) (v : String)
    (acc : List HexFeature × List (String × HexAnnotationCacheEntry)) (f : HexFeature)
    (k : String) (e : HexAnnotationCacheEntry) (h : mapGet acc.2 k = some e) :
    mapGet (annotateStep P v acc f).2 k = some e := by
  cases hm : mapGet acc.2 (cellIdOf f ++ ":" ++ v) with
  | some e' =>
    rw [annotateStep_hit P v acc f e' hm]
    exact h
  | none =>
    rw [annotateStep_miss P v acc f hm]
    have hk : k ≠ cellIdOf f ++ ":" ++ v := by
      intro hkk
      rw [hkk, hm] at h
      exact Option.noConfusion h
    rw [mapGet_set_ne acc.2 _ k _ hk]
    exact h

theorem annotateFold_keep (P : List ((ℚ × ℚ) × PoiKind)) (v : String) :
    ∀ (l : List HexFeature) (acc : List HexFeature × List (String × HexAnnotationCacheEntry))
      (k : String) (e : HexAnnotationCacheEntry), mapGet acc.2 k = some e →
      mapGet (l.foldl (annotateStep P v) acc).2 k = some e := by
  intro l
  induction l with
  | nil => intro acc k e h; exact h
  | cons f rest ih =>
    intro acc k e h
    exact ih _ k e (annotateStep_keep P v acc f k e h)

theorem annotateFold_view (P : List ((ℚ × ℚ) × PoiKind)) (v : String) :
    ∀ (l : List HexFeature) (acc : List HexFeature × List (String × HexAnnotationCacheEntry)),
      (l.foldl (annotateStep P v) acc).1
          = acc.1 ++ l.map (annotateFromCache (l.foldl (annotateStep P v) acc).2 v)
        ∧ ∀ f ∈ l, ∃ e,
            mapGet (l.foldl (annotateStep P v) acc).2 (cellIdOf f ++ ":" ++ v) = some e := by
  intro l
  induction l with
  | nil =>
    intro acc
    exact ⟨by simp, by simp⟩
  | cons f rest ih =>
    intro acc
    simp only [List.foldl_cons, List.map_cons]
    obtain ⟨e, hstep, hget⟩ := annotateStep_entry P v acc f
    have h1 : (annotateStep P v acc f).1 = acc.1 ++ [cachedFeature f e] := by
      rw [hstep]
    obtain ⟨ih1, ih2⟩ := ih (annotateStep P v acc f)
    have hC : mapGet (rest.foldl (annotateStep P v) (annotateStep P v acc f)).2
        (cellIdOf f ++ ":" ++ v) = some e :=
      annotateFold_keep P v rest (annotateStep P v acc f) _ e hget
    have hA : annotateFromCache (rest.foldl (annotateStep P v) (annotateStep P v acc f)).2 v f
        = cachedFeature f e := by
      simp only [annotateFromCache, hC]
      rfl
    refine ⟨?_, ?_⟩
    · rw [ih1, h1, hA, List.append_assoc, List.singleton_append]
    · intro g hg
      rcases List.mem_cons.1 hg with hg | hg
      · subst hg
        exact ⟨e, hC⟩
      · exact ih2 g hg

theorem annotateFold_allHit (P : List ((ℚ × ℚ) × PoiKind)) (v : String) :
    ∀ (l : List HexFeature) (acc : List HexFeature × List (String × HexAnnotationCacheEntry)),
      (∀ f ∈ l, ∃ e, mapGet acc.2 (cellIdOf f ++ ":" ++ v) = some e) →
      l.foldl (annotateStep P v) acc
        = (acc.1 ++ l.map (annotateFromCache acc.2 v), acc.2) := by
  intro l
  induction l with
  | nil => intro acc _; simp
  | cons f rest ih =>
    intro acc h
    obtain ⟨e, he⟩ := h f (List.mem_cons_self f rest)
    have hA : annotateFromCache acc.2 v f = cachedFeature f e := by
      simp only [annotateFromCache, he]
      rfl
    simp only [List.foldl_cons, List.map_cons]
    rw [annotateStep_hit P v acc f e he]
    rw [ih (acc.1 ++ [cachedFeature f e], acc.2)
      (fun g hg => h g (List.mem_cons_of_mem f hg))]
    rw [hA, List.append_assoc, List.singleton_append]

theorem keyData_inj : ∀ (xs ys b d : List Char), ':' ∉ xs → ':' ∉ ys →
    xs ++ ':' :: b = ys ++ ':' :: d → xs = ys ∧ b = d := by
  intro xs
  induction xs with
  | nil =>
    intro ys b d _ hys h
    cases ys with
    | nil => simpa using h
    | cons y ys2 =>
      simp only [List.nil_append, List.cons_append] at h
      injection h with h1 h2
      subst h1
      simp at hys
  | cons x xs2 ih =>
    intro ys b d hxs hys h
    cases ys with
    | nil =>
      simp only [List.cons_append, List.nil_append] at h
      injection h with h1 h2
      subst h1
      simp at hxs
    | cons y ys2 =>
      simp only [List.cons_append] at h
      injection h with h1 h2
      obtain ⟨e1, e2⟩ := ih ys2 b d
        (fun hm => hxs (List.mem_cons_of_mem _ hm))
        (fun hm => hys (List.mem_cons_of_mem _ hm)) h2
      subst h1
      exact ⟨by rw [e1], e2⟩

/-- The cache key `` `${cellId}:${poiVersion}` `` splits uniquely as long as the
cell id is colon-free; the source's fingerprints `` `pois:${n}:${h}` `` themselves
contain colons, which is why colon-bearing cell ids can forge keys. -/
theorem colonKey_inj (a b c d : String) (ha : ':' ∉ a.data) (hc : ':' ∉ c.data)
    (h : a ++ ":" ++ b = c ++ ":" ++ d) : a = c ∧ b = d := by
  have hdata : a.data ++ ':' :: b.data = c.data ++ ':' :: d.data := by
    have h2 := congrArg String.data h
    cases a with
    | mk la =>
      cases b with
      | mk lb =>
        cases c with
        | mk lc =>
          cases d with
          | mk ld => simpa using h2
  obtain ⟨h1, h2⟩ := keyData_inj a.data c.data b.data d.data ha hc hdata
  constructor
  · cases a with
    | mk la =>
      cases c with
      | mk lc => simp only at h1; rw [h1]
  · cases b with
    | mk lb =>
      cases d with
      | mk ld => simp only at h2; rw [h2]

theorem mapGet_filter_of_all {β : Type} (p : String × β → Bool) (c : List (String × β))
    (k : String) (h : ∀ q ∈ c, q.1 = k → p q = true) :
    mapGet (c.filter p) k = mapGet c k := by
  induction c with
  | nil => rfl
  | cons q rest ih =>
    have ihr := ih (fun r hr hrk => h r (List.mem_cons_of_mem q hr) hrk)
    by_cases hk : q.1 = k
    · rw [List.filter_cons_of_pos (h q (List.mem_cons_self q rest) hk)]
      simp only [mapGet, hk, if_true]
    · cases hpq : p q with
      | false =>
        rw [List.filter_cons_of_neg (by simp [hpq])]
        rw [ihr]
        simp only [mapGet, hk, if_false]
      | true =>
        rw [List.filter_cons_of_pos hpq]
        simp only [mapGet, hk, if_false]
        exact ihr

theorem annotateFold_filter (P : List ((ℚ × ℚ) × PoiKind)) (v : String) :
    ∀ (l : List HexFeature) (o : List HexFeature)
      (c : List (String × HexAnnotationCacheEntry)),
      (∀ f ∈ l, ':' ∉ (cellIdOf f).data) →
      (∀ q ∈ c, q.2.poiVersion ≠ v →
        ∃ cid : String, ':' ∉ cid.data ∧ q.1 = cid ++ ":" ++ q.2.poiVersion) →
      l.foldl (annotateStep P v) (o, c.filter (fun q => decide (q.2.poiVersion = v)))
        = ((l.foldl (annotateStep P v) (o, c)).1,
           (l.foldl (annotateStep P v) (o, c)).2.filter
             (fun q => decide (q.2.poiVersion = v))) := by
  intro l
  induction l with
  | nil => intro o c _ _; rfl
  | cons f rest ih =>
    intro o c hl hc
    have hkey : ∀ q ∈ c, q.1 = cellIdOf f ++ ":" ++ v →
        (fun q => decide (q.2.poiVersion = v)) q = true := by
      intro q hq hqk
      simp only [decide_eq_true_eq]
      by_contra hv
      obtain ⟨cid, hcid, hq1⟩ := hc q hq hv
      rw [hq1] at hqk
      obtain ⟨-, hbd⟩ := colonKey_inj cid q.2.poiVersion (cellIdOf f) v hcid
        (hl f (List.mem_cons_self f rest)) hqk
      exact hv hbd
    have hget : mapGet (c.filter (fun q => decide (q.2.poiVersion = v)))
        (cellIdOf f ++ ":" ++ v) = mapGet c (cellIdOf f ++ ":" ++ v) :=
      mapGet_filter_of_all _ c _ hkey
    have hlrest : ∀ g ∈ rest, ':' ∉ (cellIdOf g).data :=
      fun g hg => hl g (List.mem_cons_of_mem f hg)
    simp only [List.foldl_cons]
    cases hm : mapGet c (cellIdOf f ++ ":" ++ v) with
    | some e =>
      rw [annotateStep_hit P v (o, c.filter (fun q => decide (q.2.poiVersion = v))) f e
        (hget.trans hm)]
      rw [annotateStep_hit P v (o, c) f e hm]
      exact ih (o ++ [cachedFeature f e]) c hlrest hc
    | none =>
      rw [annotateStep_miss P v (o, c.filter (fun q => decide (q.2.poiVersion = v))) f
        (hget.trans hm)]
      rw [annotateStep_miss P v (o, c) f hm]
      rw [mapSet_append_of_none _ _ _ (hget.trans hm), mapSet_append_of_none _ _ _ hm]
      have hfilt : c.filter (fun q => decide (q.2.poiVersion = v))
            ++ [(cellIdOf f ++ ":" ++ v, missEntry P v f)]
          = (c ++ [(cellIdOf f ++ ":" ++ v, missEntry P v f)]).filter
              (fun q => decide (q.2.poiVersion = v)) := by
        rw [List.filter_append]
        congr 1
        rw [List.filter_cons_of_pos (by simp [missEntry])]
        rfl
      rw [hfilt]
      have hc2 : ∀ q ∈ c ++ [(cellIdOf f ++ ":" ++ v, missEntry P v f)],
          q.2.poiVersion ≠ v →
          ∃ cid : String, ':' ∉ cid.data ∧ q.1 = cid ++ ":" ++ q.2.poiVersion := by
        intro q hq hv
        rcases List.mem_append.1 hq with hq | hq
        · exact hc q hq hv
        · simp only [List.mem_singleton] at hq
          subst hq
          exact absurd rfl hv
      exact ih (o ++ [cachedFeature f (missEntry P v f)])
        (c ++ [(cellIdOf f ++ ":" ++ v, missEntry P v f)]) hlrest hc2

/-- C6 (amended): re-annotating with the same fingerprint over the cache produced
by a first run returns the identical features and final cache (for any starting
cache).  Fingerprint isolation holds under the side condition that the annotated
cell ids are colon-free and every cached key was formed from a colon-free cell
id: then annotating is unaffected by dropping all entries carrying a different
fingerprint, i.e. stale entries are never consulted.  Without the side condition
the key `` `${cellId}:${poiVersion}` `` can collide across fingerprints (the hit
path never compares the stored `poiVersion`), see the counterexample. -/
theorem cache_correctness_amended (hexFc : List HexFeature) (poisFc : List PoiFeature)
    (v : String) (cache : List (String × HexAnnotationCacheEntry)) :
    annotateHexesWithPois hexFc poisFc v (annotateHexesWithPois hexFc poisFc v cache).2
      = annotateHexesWithPois hexFc poisFc v cache
    ∧ ((∀ f ∈ hexFc, ':' ∉ (cellIdOf f).data) →
       (∀ q ∈ cache, q.2.poiVersion ≠ v →
         ∃ cid : String, ':' ∉ cid.data ∧ q.1 = cid ++ ":" ++ q.2.poiVersion) →
       (annotateHexesWithPois hexFc poisFc v cache).1
         = (annotateHexesWithPois hexFc poisFc v
             (cache.filter (fun q => decide (q.2.poiVersion = v)))).1) := by
  constructor
  · cases hexFc with
    | nil => rfl
    | cons f rest =>
      simp only [annotateHexesWithPois, List.isEmpty_cons, Bool.false_eq_true, if_false]
      obtain ⟨hview, hhits⟩ :=
        annotateFold_view (annotPoiList poisFc) v (f :: rest) ([], cache)
      rw [annotateFold_allHit (annotPoiList poisFc) v (f :: rest)
        ([], ((f :: rest).foldl (annotateStep (annotPoiList poisFc) v) ([], cache)).2) hhits]
      simp only [List.nil_append] at hview ⊢
      exact Prod.ext hview.symm rfl
  · intro hhex hcache
    cases hexFc with
    | nil => rfl
    | cons f rest =>
      simp only [annotateHexesWithPois, List.isEmpty_cons, Bool.false_eq_true, if_false]
      rw [annotateFold_filter (annotPoiList poisFc) v (f :: rest) [] cache hhex hcache]

/-- Unit square containing the test POI, for the cache-collision counterexample. -/
def c6Geom : Geom :=
  Geom.polygon [[(0, 0), (1, 0), (1, 1), (0, 1), (0, 0)]]

/-- A bare input hex feature carrying only a cell id, resolution 6 and the unit
square geometry. -/
def c6Hex (cid : String) : HexFeature :=
  ⟨none, some cid, some 6, none, none, none, none, none, none, none, none, none, none,
   none, some c6Geom⟩

/-- One synagogue inside the square. -/
def c6Pois : List PoiFeature := [⟨some "synagogue", none, [1/2, 1/2]⟩]

theorem c6_kind : poiKindOf ⟨some "synagogue", none, [1/2, 1/2]⟩
    = some PoiKind.synagogue := by decide

theorem c6_annot_list : annotPoiList c6Pois
    = [(((1 : ℚ)/2, (1 : ℚ)/2), PoiKind.synagogue)] := rfl

theorem c6_in : pointInGeoJsonPolygon ((1 : ℚ)/2, (1 : ℚ)/2) c6Geom = true := by
  norm_num [pointInGeoJsonPolygon, pointInRing, ringEdges, chainEdges, crossesEdge,
    c6Geom, List.getLastD]

theorem c6_first : annotateHexesWithPois [c6Hex "x:a"] c6Pois "b" []
    = ([cachedFeature (c6Hex "x:a") ⟨"b", ⟨1, 0, 0, 0, 0, 0⟩, 250, 28⟩],
       [("x:a:b", ⟨"b", ⟨1, 0, 0, 0, 0, 0⟩, 250, 28⟩)]) := by
  rw [show annotateHexesWithPois [c6Hex "x:a"] c6Pois "b" []
      = annotateStep (annotPoiList c6Pois) "b" ([], []) (c6Hex "x:a") from rfl]
  rw [c6_annot_list]
  norm_num +decide [annotateStep, mapGet, mapSet, cellIdOf, c6Hex, c6_in, cachedFeature,
    incrementCount, emptyPoiCounts, getEstimatedFromPoiCounts, ALL_POI_KINDS, countFor,
    POI_ESTIMATE_WEIGHT, jsRound, greedLevelFromEstimated, clampZ, greedMaxByRes]

/-- C6 counterexample: the cache key is the bare concatenation
`` `${cellId}:${poiVersion}` ``, so the entry stored for cell id `"x:a"` under
fingerprint `"b"` is read back when annotating cell id `"x"` under the different
fingerprint `"a:b"`: over the leftover cache the cell reports estimate 250, over
an empty cache it reports 0. -/
theorem cache_isolation_cex :
    ("b" : String) ≠ "a:b" ∧
    ((annotateHexesWithPois [c6Hex "x"] [] "a:b"
        (annotateHexesWithPois [c6Hex "x:a"] c6Pois "b" []).2).1.map
        (fun f => f.estimated)) = [some 250] ∧
    ((annotateHexesWithPois [c6Hex "x"] [] "a:b" []).1.map
        (fun f => f.estimated)) = [some 0] := by
  refine ⟨by decide, ?_, ?_⟩
  · rw [c6_first]
    rw [show annotateHexesWithPois [c6Hex "x"] [] "a:b"
        [("x:a:b", ⟨"b", ⟨1, 0, 0, 0, 0, 0⟩, 250, 28⟩)]
        = annotateStep (annotPoiList []) "a:b"
            ([], [("x:a:b", ⟨"b", ⟨1, 0, 0, 0, 0, 0⟩, 250, 28⟩)]) (c6Hex "x") from rfl]
    norm_num +decide [annotateStep, mapGet, cellIdOf, c6Hex, cachedFeature]
  · rw [show annotateHexesWithPois [c6Hex "x"] [] "a:b" []
        = annotateStep (annotPoiList []) "a:b" ([], []) (c6Hex "x") from rfl]
    norm_num +decide [annotateStep, annotPoiList, mapGet, cellIdOf, c6Hex,
      emptyPoiCounts, getEstimatedFromPoiCounts, ALL_POI_KINDS, countFor,
      POI_ESTIMATE_WEIGHT, jsRound, greedLevelFromEstimated, clampZ, greedMaxByRes]

/-- Witness for `cache_correctness_amended` on a singleton colon-free cell over
the empty starting cache, with the isolation side conditions discharged
concretely. -/
theorem cache_correctness_amended_witness :
    annotateHexesWithPois [c6Hex "x"] c6Pois "v"
        (annotateHexesWithPois [c6Hex "x"] c6Pois "v" []).2
      = annotateHexesWithPois [c6Hex "x"] c6Pois "v" []
    ∧ (annotateHexesWithPois [c6Hex "x"] c6Pois "v" []).1
      = (annotateHexesWithPois [c6Hex "x"] c6Pois "v"
          (List.filter (fun q => decide (q.2.poiVersion = "v")) [])).1 :=
  ⟨(cache_correctness_amended [c6Hex "x"] c6Pois "v" []).1,
   (cache_correctness_amended [c6Hex "x"] c6Pois "v" []).2 (by decide) (by simp)⟩

/-! ## C9: the mercator hex-ring builder over exact reals

The builder uses `Math.cos`, `Math.sin`, `Math.atan`, `Math.exp`; this section
embeds it over `ℝ` with the exact functions so the "exactly distance r" part of
the claim is meaningful. -/

/-- Source constant `R = 6378137` (the spherical-mercator earth radius). -/
def EARTH_R : ℝ := 6378137

/-- `roundTo` over `ℝ` (JS `Math.round(n * 10 ** d) / 10 ** d`). -/
noncomputable def roundToR (n : ℝ) (d : ℕ) : ℝ := (⌊n * 10 ^ d + 1/2⌋ : ℝ) / 10 ^ d

/-- Source `mercatorToLonLat(x, y)`. -/
noncomputable def mercatorToLonLat (x y : ℝ) : ℝ × ℝ :=
  ((x * 180) / (Real.pi * EARTH_R),
   (Real.arctan (Real.exp (y / EARTH_R)) * 360) / Real.pi - 90)

/-- The loop angle `((30 + 60 * k) * Math.PI) / 180`. -/
noncomputable def hexAngle (k : ℕ) : ℝ := ((30 + 60 * (k : ℝ)) * Real.pi) / 180

/-- The projected vertex `(cx + r·cos ang, cy + r·sin ang)` with
`r = radiusM * HEX_COVERAGE`, before conversion to geographic coordinates. -/
noncomputable def hexVertexMerc (cx cy radiusM : ℝ) (k : ℕ) : ℝ × ℝ :=
  (cx + radiusM * ((HEX_COVERAGE : ℚ) : ℝ) * Real.cos (hexAngle k),
   cy + radiusM * ((HEX_COVERAGE : ℚ) : ℝ) * Real.sin (hexAngle k))

/-- One output vertex: projected vertex, converted back, both coordinates rounded
to `VTX_DECIMALS` places. -/
noncomputable def outVtx (cx cy radiusM : ℝ) (k : ℕ) : ℝ × ℝ :=
  let p := hexVertexMerc cx cy radiusM k
  let ll := mercatorToLonLat p.1 p.2
  (roundToR ll.1 VTX_DECIMALS, roundToR ll.2 VTX_DECIMALS)

/-- Source `makeHexRingMercator(cx, cy, radiusM)` (identical in `MapShell.tsx` and
`mockData.ts`): vertices for `k = 0..5`, then `pts.push(pts[0])`. -/
noncomputable def makeHexRingMercatorR (cx cy radiusM : ℝ) : List (ℝ × ℝ) :=
  let pts := (List.range 6).map (outVtx cx cy radiusM)
  pts ++ [pts.headD (0, 0)]

theorem roundToR_int (n : ℝ) (d : ℕ) : ∃ a : ℤ, roundToR n d = (a : ℝ) / 10 ^ d :=
  ⟨⌊n * 10 ^ d + 1/2⌋, rfl⟩

theorem hexAngle_vals :
    (Real.cos (hexAngle 0) = Real.sqrt 3 / 2 ∧ Real.sin (hexAngle 0) = 1 / 2)
    ∧ (Real.cos (hexAngle 1) = 0 ∧ Real.sin (hexAngle 1) = 1)
    ∧ (Real.cos (hexAngle 2) = -(Real.sqrt 3 / 2) ∧ Real.sin (hexAngle 2) = 1 / 2)
    ∧ (Real.cos (hexAngle 3) = -(Real.sqrt 3 / 2) ∧ Real.sin (hexAngle 3) = -(1 / 2))
    ∧ (Real.cos (hexAngle 4) = 0 ∧ Real.sin (hexAngle 4) = -1)
    ∧ (Real.cos (hexAngle 5) = Real.sqrt 3 / 2 ∧ Real.sin (hexAngle 5) = -(1 / 2)) := by
  have h0 : hexAngle 0 = Real.pi / 6 := by unfold hexAngle; push_cast; ring
  have h1 : hexAngle 1 = Real.pi / 2 := by unfold hexAngle; push_cast; ring
  have h2 : hexAngle 2 = Real.pi - Real.pi / 6 := by unfold hexAngle; push_cast; ring
  have h3 : hexAngle 3 = Real.pi / 6 + Real.pi := by unfold hexAngle; push_cast; ring
  have h4 : hexAngle 4 = Real.pi / 2 + Real.pi := by unfold hexAngle; push_cast; ring
  have h5 : hexAngle 5 = -(Real.pi / 6) + 2 * Real.pi := by unfold hexAngle; push_cast; ring
  refine ⟨⟨?_, ?_⟩, ⟨?_, ?_⟩, ⟨?_, ?_⟩, ⟨?_, ?_⟩, ⟨?_, ?_⟩, ⟨?_, ?_⟩⟩
  · rw [h0, Real.cos_pi_div_six]
  · rw [h0, Real.sin_pi_div_six]
  · rw [h1, Real.cos_pi_div_two]
  · rw [h1, Real.sin_pi_div_two]
  · rw [h2, Real.cos_pi_sub, Real.cos_pi_div_six]
  · rw [h2, Real.sin_pi_sub, Real.sin_pi_div_six]
  · rw [h3, Real.cos_add_pi, Real.cos_pi_div_six]
  · rw [h3, Real.sin_add_pi, Real.sin_pi_div_six]
  · rw [h4, Real.cos_add_pi, Real.cos_pi_div_two, neg_zero]
  · rw [h4, Real.sin_add_pi, Real.sin_pi_div_two]
  · rw [h5, Real.cos_add_two_pi, Real.cos_neg, Real.cos_pi_div_six]
  · rw [h5, Real.sin_add_two_pi, Real.sin_neg, Real.sin_pi_div_six]

/-- C9: `makeHexRingMercator` returns a closed 7-vertex ring whose last vertex
equals its first; output vertex `k` is the geographic conversion of the projected
vertex at angle `30° + 60°·k`, with both coordinates rounded to
`VTX_DECIMALS = 8` decimal places (every output coordinate is an integer multiple
of `10⁻⁸`); each projected vertex lies at exactly distance `radiusM` (coverage
factor 1.0) from the center, and for a positive radius the six projected
vertices are pairwise distinct. -/
theorem hex_ring_spec (cx cy r : ℝ) (hr : 0 < r) :
    makeHexRingMercatorR cx cy r
        = [outVtx cx cy r 0, outVtx cx cy r 1, outVtx cx cy r 2, outVtx cx cy r 3,
           outVtx cx cy r 4, outVtx cx cy r 5, outVtx cx cy r 0]
    ∧ (makeHexRingMercatorR cx cy r).length = 7
    ∧ (makeHexRingMercatorR cx cy r).getLast? = (makeHexRingMercatorR cx cy r).head?
    ∧ (∀ p ∈ makeHexRingMercatorR cx cy r,
        (∃ a : ℤ, p.1 = (a : ℝ) / 10 ^ VTX_DECIMALS) ∧
        (∃ b : ℤ, p.2 = (b : ℝ) / 10 ^ VTX_DECIMALS))
    ∧ (∀ k : ℕ, ((hexVertexMerc cx cy r k).1 - cx) ^ 2
          + ((hexVertexMerc cx cy r k).2 - cy) ^ 2 = r ^ 2)
    ∧ (∀ j k : ℕ, j < 6 → k < 6 → j ≠ k →
        hexVertexMerc cx cy r j ≠ hexVertexMerc cx cy r k) := by
  have hlist : makeHexRingMercatorR cx cy r
      = [outVtx cx cy r 0, outVtx cx cy r 1, outVtx cx cy r 2, outVtx cx cy r 3,
         outVtx cx cy r 4, outVtx cx cy r 5, outVtx cx cy r 0] := rfl
  have hcov : ((HEX_COVERAGE : ℚ) : ℝ) = 1 := by norm_num [HEX_COVERAGE]
  refine ⟨hlist, by rw [hlist]; rfl, by rw [hlist]; rfl, ?_, ?_, ?_⟩
  · intro p hp
    rw [hlist] at hp
    simp only [List.mem_cons, List.not_mem_nil, or_false] at hp
    rcases hp with rfl | rfl | rfl | rfl | rfl | rfl | rfl <;>
      exact ⟨roundToR_int _ _, roundToR_int _ _⟩
  · intro k
    have key := Real.cos_sq_add_sin_sq (hexAngle k)
    simp only [hexVertexMerc, hcov, mul_one]
    linear_combination r ^ 2 * key
  · intro j k hj hk hne
    obtain ⟨⟨c0, s0⟩, ⟨c1, s1⟩, ⟨c2, s2⟩, ⟨c3, s3⟩, ⟨c4, s4⟩, ⟨c5, s5⟩⟩ := hexAngle_vals
    have h3 : (0 : ℝ) < Real.sqrt 3 := Real.sqrt_pos.mpr (by norm_num)
    interval_cases j <;> interval_cases k <;>
      first
        | exact absurd rfl hne
        | (intro heq
           have e1 := congrArg Prod.fst heq
           have e2 := congrArg Prod.snd heq
           simp only [hexVertexMerc, hcov, mul_one, c0, s0, c1, s1, c2, s2, c3, s3,
             c4, s4, c5, s5] at e1 e2
           nlinarith [e1, e2, hr, h3])

/-- Witness for `hex_ring_spec` at center `(0, 0)` and radius `1`. -/
theorem hex_ring_spec_witness :
    (0 : ℝ) < 1
    ∧ (makeHexRingMercatorR 0 0 1).length = 7
    ∧ (makeHexRingMercatorR 0 0 1).getLast? = (makeHexRingMercatorR 0 0 1).head? :=
  ⟨by norm_num, (hex_ring_spec 0 0 1 (by norm_num)).2.1,
   (hex_ring_spec 0 0 1 (by norm_num)).2.2.1⟩

end GreedSeek
